import Mathlib

/-!
Verification of the core actor runtime (skynet) against its
natural-language specification.  The C sources are shallowly embedded:
machine integers become `Nat`/`Int` with explicit wrap-around where the C
type wraps, pointers that may be NULL become `Option`, and the effect of a
call (messages pushed, syscalls performed, error lines emitted) is returned
explicitly.  Each section names the C file and function it embeds.
-/

set_option maxHeartbeats 1000000

namespace Skynet

/-! ### Shared constants (skynet.h, skynet_mq.h, skynet_module.h)

On the reference 64-bit platform `sizeof(size_t) = 8`, so
`MESSAGE_TYPE_SHIFT = 56` and `MESSAGE_TYPE_MASK = SIZE_MAX >> 8 = 2^56 - 1`.
-/

def MESSAGE_TYPE_SHIFT : Nat := 56

def MESSAGE_TYPE_MASK : Nat := 2 ^ 56 - 1

def PTYPE_RESPONSE : Nat := 1

def PTYPE_ERROR : Nat := 7

def PTYPE_TAG_DONTCOPY : Nat := 0x10000

def PTYPE_TAG_ALLOCSESSION : Nat := 0x20000

def HANDLE_MASK : Nat := 0xffffff

def HANDLE_REMOTE_SHIFT : Nat := 24

/-! ### skynet_server.c: skynet_context_newsession

`int session = ++ctx->session_id;` on a 32-bit `int`; we model the C
two's-complement wrap-around explicitly with `wrap32`. The function returns
the pair (returned session, new value of `ctx->session_id`).
-/

/-- Two's-complement wrap of an integer into `[-2^31, 2^31)`. -/
def wrap32 (x : Int) : Int := (x + 2 ^ 31) % 2 ^ 32 - 2 ^ 31

def skynet_context_newsession (session_id : Int) : Int × Int :=
  let session := wrap32 (session_id + 1)
  -- session always be a positive number
  if session ≤ 0 then (1, 1) else (session, session)

/-! ### socket_server.c: enable_write

`sp_enable` (the epoll/kqueue re-registration syscall) is modelled by the
Boolean in the result: `true` iff the underlying syscall was performed.
Only the fields read by `enable_write` are kept.
-/

structure CSocket where
  fd : Nat
  reading : Bool
  writing : Bool
deriving DecidableEq, Repr

def enable_write (s : CSocket) (enable : Bool) : CSocket × Bool :=
  if s.writing ≠ enable then
    ({ s with writing := enable }, true)
  else
    (s, false)

/-! ### skynet_monitor.c

`skynet_monitor_check` returns the updated monitor together with
`some destination` exactly when it marked that service endless and emitted
the error line (both happen in the same branch).
-/

structure SkynetMonitor where
  version : Int
  check_version : Int
  source : Nat
  destination : Nat
deriving DecidableEq, Repr

def skynet_monitor_trigger (sm : SkynetMonitor) (source destination : Nat) :
    SkynetMonitor :=
  { sm with source := source, destination := destination,
            version := wrap32 (sm.version + 1) }

def skynet_monitor_check (sm : SkynetMonitor) : SkynetMonitor × Option Nat :=
  if sm.version = sm.check_version then
    if sm.destination ≠ 0 then
      -- skynet_context_endless(sm->destination); skynet_error(...)
      (sm, some sm.destination)
    else
      (sm, none)
  else
    ({ sm with check_version := sm.version }, none)

/-! ### skynet_server.c: cmd_stat

Only the fields `cmd_stat` reads are modelled.  The `cpu` and `time`
branches print a `double` with `%lf`; floating-point formatting is outside
the embedding, so those branches carry the integral microsecond count
through `toString`.  The claim under check only concerns the `endless`
branch, whose strings ("1"/"0") are exact.
-/

structure StatContext where
  endless : Bool
  mqlen : Nat
  cpu_cost : Nat
  cpu_start : Nat
  profile : Bool
  thread_time : Nat
  message_count : Nat
deriving DecidableEq, Repr

def cmd_stat (ctx : StatContext) (param : String) : StatContext × String :=
  if param = "mqlen" then
    (ctx, toString ctx.mqlen)
  else if param = "endless" then
    if ctx.endless then
      ({ ctx with endless := false }, "1")
    else
      (ctx, "0")
  else if param = "cpu" then
    (ctx, toString ctx.cpu_cost)
  else if param = "time" then
    if ctx.profile then
      (ctx, toString (ctx.thread_time - ctx.cpu_start))
    else
      (ctx, "0")
  else if param = "message" then
    (ctx, toString ctx.message_count)
  else
    (ctx, "")

/-! ### skynet_server.c: skynet_send, drop_message

A message (`struct skynet_message`): the NULL-able payload pointer becomes
`Option (List Nat)` (byte content; the `needcopy` duplication of
`_filter_args` copies the same bytes, so the logical payload is unchanged).
`skynet_send` is modelled as a function of
  - `harbor`: the node-id field `HARBOR` of skynet_harbor.c (already shifted),
  - `live`: whether `skynet_handle_grab` succeeds for a handle, which is
    exactly the condition for `skynet_context_push` to return 0,
  - the C arguments,
returning `none` on a NULL `context` dereference (unreachable at the
modelled call sites) and otherwise the C return value together with the
list of messages pushed into local mailboxes and the list of envelopes
handed to the harbor.
-/

structure SkynetMessage where
  source : Nat
  session : Int
  data : Option (List Nat)
  sz : Nat
deriving DecidableEq, Repr

structure RemoteEnvelope where
  destination : Nat
  message : Option (List Nat)
  sz : Nat
  type : Nat
  source : Nat
  session : Int
deriving DecidableEq, Repr

structure SkynetContext where
  handle : Nat
  session_id : Int
deriving DecidableEq, Repr

def skynet_harbor_message_isremote (harbor handle : Nat) : Bool :=
  let h := handle &&& (0xffffffff - HANDLE_MASK)
  h ≠ harbor && h ≠ 0

def filter_args (context : Option SkynetContext) (tp : Nat) (session : Int)
    (data : Option (List Nat)) (sz : Nat) :
    Option (Option SkynetContext × Int × Option (List Nat) × Nat) :=
  let allocsession := tp &&& PTYPE_TAG_ALLOCSESSION
  let tp0 := tp &&& 0xff
  if allocsession ≠ 0 then
    match context with
    | some c =>
        let r := skynet_context_newsession c.session_id
        some (some { c with session_id := r.2 }, r.1, data,
              sz ||| (tp0 <<< MESSAGE_TYPE_SHIFT))
    | none => none
  else
    some (context, session, data, sz ||| (tp0 <<< MESSAGE_TYPE_SHIFT))

def skynet_send (harbor : Nat) (live : Nat → Bool)
    (context : Option SkynetContext) (source destination tp : Nat)
    (session : Int) (data : Option (List Nat)) (sz : Nat) :
    Option (Int × List (Nat × SkynetMessage) × List RemoteEnvelope) :=
  if sz &&& MESSAGE_TYPE_MASK ≠ sz then
    -- error: The message to %x is too large  (payload freed, nothing sent)
    some (-2, [], [])
  else
    match filter_args context tp session data sz with
    | none => none
    | some (_, session', data', sz') =>
      let src? : Option Nat :=
        if source = 0 then
          match context with
          | some c => some c.handle
          | none => none
        else some source
      match src? with
      | none => none
      | some src =>
        if destination = 0 then
          if data'.isSome then
            -- error: Destination address can't be 0  (payload freed)
            some (-1, [], [])
          else
            some (session', [], [])
        else if skynet_harbor_message_isremote harbor destination then
          some (session',
                [],
                [⟨destination, data', sz' &&& MESSAGE_TYPE_MASK,
                  sz' >>> MESSAGE_TYPE_SHIFT, src, session'⟩])
        else
          if live destination then
            some (session', [(destination, ⟨src, session', data', sz'⟩)], [])
          else
            -- skynet_context_push failed: payload freed, -1
            some (-1, [], [])

def drop_message (harbor : Nat) (live : Nat → Bool) (drop_handle : Nat)
    (msg : SkynetMessage) :
    Option (Int × List (Nat × SkynetMessage) × List RemoteEnvelope) :=
  -- skynet_free(msg->data); report error to the message source
  skynet_send harbor live none drop_handle msg.source PTYPE_ERROR
    msg.session none 0

/-! ### skynet_server.c: skynet_context_message_dispatch (one turn)

The dispatch loop, for one scheduling turn on a non-empty grabbed mailbox,
in its sequential essence: `n` starts at 1; on the first successful pop
with `weight >= 0`, `n` is recomputed as `skynet_mq_length(q) >> weight`
(the length AFTER that pop); the loop then pops until `i = n` or the
mailbox empties.  The mailbox is a FIFO list; the pair returned is
(number of messages dispatched, remaining mailbox content).
-/

def dispatch_more : Nat → List SkynetMessage → Nat × List SkynetMessage
  | 0, q => (0, q)
  | _ + 1, [] => (0, [])
  | k + 1, _ :: rest =>
      let r := dispatch_more k rest
      (r.1 + 1, r.2)

def message_dispatch_turn (q : List SkynetMessage) (weight : Int) :
    Nat × List SkynetMessage :=
  match q with
  | [] => (0, [])
  | _ :: rest =>
      let n : Nat := if 0 ≤ weight then rest.length >>> weight.toNat else 1
      let r := dispatch_more (n - 1) rest
      (r.1 + 1, r.2)

/-! ### skynet_mq.c: per-service mailbox ring buffer

The backing array `queue` (malloc'd to `cap` entries) is a `List` of length
`cap`; uninitialized slots are represented by the junk value `mdefault`.
Fields not touched by `skynet_mq_push`/`expand_queue` (`lock`, `handle`,
`release`, `overload`, `overload_threshold`, `next`) are omitted.
`skynet_mq_push` returns the updated queue together with `true` iff it
enqueued the mailbox on the global run queue (`skynet_globalmq_push`).
-/

def DEFAULT_QUEUE_SIZE : Nat := 64

/-- Junk value standing for an uninitialized array slot. -/
def mdefault : SkynetMessage := ⟨0, 0, none, 0⟩

structure MessageQueue where
  cap : Nat
  head : Nat
  tail : Nat
  queue : List SkynetMessage
  in_global : Bool
deriving DecidableEq, Repr

def skynet_mq_create (_handle : Nat) : MessageQueue :=
  { cap := DEFAULT_QUEUE_SIZE, head := 0, tail := 0,
    queue := List.replicate DEFAULT_QUEUE_SIZE mdefault, in_global := true }

def skynet_mq_length (q : MessageQueue) : Nat :=
  if q.head ≤ q.tail then q.tail - q.head else q.tail + q.cap - q.head

def expand_queue (q : MessageQueue) : MessageQueue :=
  let new_queue :=
    (List.range q.cap).map
      (fun i => q.queue.getD ((q.head + i) % q.cap) mdefault) ++
    List.replicate q.cap mdefault
  { q with queue := new_queue, head := 0, tail := q.cap, cap := q.cap * 2 }

def skynet_mq_push (q : MessageQueue) (m : SkynetMessage) :
    MessageQueue × Bool :=
  let q1 := { q with queue := q.queue.set q.tail m,
                     tail := if q.tail + 1 ≥ q.cap then 0 else q.tail + 1 }
  let q2 := if q1.head = q1.tail then expand_queue q1 else q1
  if q2.in_global = false then ({ q2 with in_global := true }, true)
  else (q2, false)

/-- Well-formedness of the ring: the backing array has exactly `cap`
entries and both indices are in range. -/
def mqWF (q : MessageQueue) : Prop :=
  q.queue.length = q.cap ∧ q.head < q.cap ∧ q.tail < q.cap ∧ 0 < q.cap

instance (q : MessageQueue) : Decidable (mqWF q) := by
  unfold mqWF
  infer_instance

/-- Logical FIFO content of the ring, oldest first. -/
def mqToList (q : MessageQueue) : List SkynetMessage :=
  (List.range (skynet_mq_length q)).map
    (fun i => q.queue.getD ((q.head + i) % q.cap) mdefault)

/-! ### skynet_handle.c: sorted name table

The `(name, handle)` table of `struct handle_storage` — what
`skynet_handle_namehandle` (bind_name) and `skynet_handle_findname` use —
is the list `name[0 .. name_count)`; `name_cap` is carried alongside.  The
element type of names is any linear order (`strcmp` becomes `compare`).
The C loops on `int begin/end` are embedded with `Int` indices (C's
truncating `(begin+end)/2` is applied only to non-negative values, where
it agrees with `Int` division).  Out-of-range reads cannot occur in the C
code; `getD` supplies the junk entry `hnDefault` in that case.
-/

structure HandleName (α : Type) where
  name : α
  handle : Nat
deriving DecidableEq, Repr

def hnDefault (α : Type) [Inhabited α] : HandleName α := ⟨default, 0⟩

def skynet_handle_findname_loop {α : Type} [LinearOrder α] [Inhabited α]
    (names : List (HandleName α)) (nm : α) (b e : Int) : Nat :=
  if b ≤ e then
    let mid := (b + e) / 2
    let n := names.getD mid.toNat (hnDefault α)
    match compare n.name nm with
    | Ordering.eq => n.handle
    | Ordering.lt => skynet_handle_findname_loop names nm (mid + 1) e
    | Ordering.gt => skynet_handle_findname_loop names nm b (mid - 1)
  else 0
termination_by (e + 1 - b).toNat
decreasing_by all_goals (simp_wf; omega)

def skynet_handle_findname {α : Type} [LinearOrder α] [Inhabited α]
    (names : List (HandleName α)) (nm : α) : Nat :=
  skynet_handle_findname_loop names nm 0 ((names.length : Int) - 1)

def _insert_name_before {α : Type} (names : List (HandleName α)) (cap : Nat)
    (nm : α) (handle : Nat) (before : Nat) : List (HandleName α) × Nat :=
  if names.length ≥ cap then
    -- grow to cap*2 and copy the entries around the hole at `before`
    (names.take before ++ ⟨nm, handle⟩ :: names.drop before, cap * 2)
  else
    -- shift the entries from `before` up by one and write the hole
    (names.take before ++ ⟨nm, handle⟩ :: names.drop before, cap)

def _insert_name_loop {α : Type} [LinearOrder α] [Inhabited α]
    (names : List (HandleName α)) (nm : α) (b e : Int) : Option Int :=
  if b ≤ e then
    let mid := (b + e) / 2
    let n := names.getD mid.toNat (hnDefault α)
    match compare n.name nm with
    | Ordering.eq => none
    | Ordering.lt => _insert_name_loop names nm (mid + 1) e
    | Ordering.gt => _insert_name_loop names nm b (mid - 1)
  else some b
termination_by (e + 1 - b).toNat
decreasing_by all_goals (simp_wf; omega)

def _insert_name {α : Type} [LinearOrder α] [Inhabited α]
    (names : List (HandleName α)) (cap : Nat) (nm : α) (handle : Nat) :
    Option (List (HandleName α) × Nat) :=
  match _insert_name_loop names nm 0 ((names.length : Int) - 1) with
  | none => none
  | some b => some (_insert_name_before names cap nm handle b.toNat)

def skynet_handle_namehandle {α : Type} [LinearOrder α] [Inhabited α]
    (names : List (HandleName α)) (cap : Nat) (nm : α) (handle : Nat) :
    Option (List (HandleName α) × Nat) :=
  _insert_name names cap nm handle

/-- Strict sortedness of the name table (the C invariant maintained by
binary insertion). -/
def NamesSorted {α : Type} [LinearOrder α] (names : List (HandleName α)) :
    Prop :=
  names.Pairwise (fun a b => a.name < b.name)

/-! ### skynet_timer.c: hierarchical timing wheel

`struct timer`: one near wheel of 256 slots, four cascade wheels of 64
slots, and the 32-bit tick counter `time` (wrap-around is written as
`% 2^32`).  A `TimerNode` carries its absolute 32-bit expiry together with
the `timer_event` payload stored behind the node.  `link` appends at the
list tail, so a slot is a `List` with new nodes appended on the right.
C's `x & TIME_NEAR_MASK` and `x & TIME_LEVEL_MASK` are written
`x % TIME_NEAR` and `x % TIME_LEVEL` (the masks are `2^8 - 1`/`2^6 - 1`);
the `|` comparisons of `add_node` are kept literally.
-/

def TIME_NEAR_SHIFT : Nat := 8

def TIME_NEAR : Nat := 2 ^ 8

def TIME_LEVEL_SHIFT : Nat := 6

def TIME_LEVEL : Nat := 2 ^ 6

def TIME_NEAR_MASK : Nat := TIME_NEAR - 1

def TIME_LEVEL_MASK : Nat := TIME_LEVEL - 1

structure TimerNode where
  expire : Nat
  handle : Nat
  session : Int
deriving DecidableEq, Repr

structure Timer where
  near : Fin TIME_NEAR → List TimerNode
  t : Fin 4 → Fin TIME_LEVEL → List TimerNode
  time : Nat

def timer_create_timer : Timer :=
  { near := fun _ => [], t := fun _ _ => [], time := 0 }

def linkNear (T : Timer) (i : Fin TIME_NEAR) (node : TimerNode) : Timer :=
  { T with near := Function.update T.near i (T.near i ++ [node]) }

def linkLevel (T : Timer) (i : Fin 4) (j : Fin TIME_LEVEL)
    (node : TimerNode) : Timer :=
  let row := Function.update (T.t i) j (T.t i j ++ [node])
  { T with t := Function.update T.t i row }

def add_node (T : Timer) (node : TimerNode) : Timer :=
  let time := node.expire
  let current_time := T.time
  if time ||| TIME_NEAR_MASK = current_time ||| TIME_NEAR_MASK then
    -- link(&T->near[time & TIME_NEAR_MASK], node)
    linkNear T ⟨time % TIME_NEAR, Nat.mod_lt _ (by decide)⟩ node
  else
    -- the bounded loop: mask = 2^14, 2^20, 2^26 for i = 0, 1, 2; else i = 3
    let i : Fin 4 :=
      if time ||| (2 ^ 14 - 1) = current_time ||| (2 ^ 14 - 1) then
        ⟨0, by decide⟩
      else if time ||| (2 ^ 20 - 1) = current_time ||| (2 ^ 20 - 1) then
        ⟨1, by decide⟩
      else if time ||| (2 ^ 26 - 1) = current_time ||| (2 ^ 26 - 1) then
        ⟨2, by decide⟩
      else ⟨3, by decide⟩
    -- link(&T->t[i][(time >> (TIME_NEAR_SHIFT + i*TIME_LEVEL_SHIFT)) & TIME_LEVEL_MASK], node)
    linkLevel T i
      ⟨(time >>> (TIME_NEAR_SHIFT + i.val * TIME_LEVEL_SHIFT)) % TIME_LEVEL,
        Nat.mod_lt _ (by decide)⟩ node

def timer_add (T : Timer) (handle : Nat) (session : Int) (time : Nat) :
    Timer :=
  -- node->expire = time + T->time on uint32_t, event data copied behind it
  let node : TimerNode := ⟨(time + T.time) % 2 ^ 32, handle, session⟩
  add_node T node

def clearLevelSlot (T : Timer) (level : Fin 4) (idx : Fin TIME_LEVEL) :
    Timer :=
  let row := Function.update (T.t level) idx []
  { T with t := Function.update T.t level row }

def move_list (T : Timer) (level : Fin 4) (idx : Fin TIME_LEVEL) : Timer :=
  -- link_clear, then re-add every node of the slot
  let current := T.t level idx
  current.foldl add_node (clearLevelSlot T level idx)

/-- One tick advance (`timer_shift`).  The C `while` loop is unfolded: the
loop runs while `ct & (mask-1) == 0` for `mask = 2^8, 2^14, 2^20, 2^26`;
once the test at one level passes, the test at the next level is exactly
`ct % 2^(8+6(i+1)) == 0`, which already follows from the previous test
together with `idx == 0`, and after `i = 3` the loop condition
`ct & (2^38 - 1) == 0` forces `ct = 0` for a 32-bit `ct`, which the outer
branch already handled — so the loop performs at most one `move_list`, at
the first level whose slot index is nonzero. -/
def timer_shift (T : Timer) : Timer :=
  let ct := (T.time + 1) % 2 ^ 32
  let T' : Timer := { T with time := ct }
  if ct = 0 then move_list T' 3 ⟨0, by decide⟩
  else if ct % TIME_NEAR ≠ 0 then T'
  else if (ct >>> TIME_NEAR_SHIFT) % TIME_LEVEL ≠ 0 then
    move_list T' 0 ⟨(ct >>> TIME_NEAR_SHIFT) % TIME_LEVEL,
      Nat.mod_lt _ (by decide)⟩
  else if (ct >>> 14) % TIME_LEVEL ≠ 0 then
    move_list T' 1 ⟨(ct >>> 14) % TIME_LEVEL, Nat.mod_lt _ (by decide)⟩
  else if (ct >>> 20) % TIME_LEVEL ≠ 0 then
    move_list T' 2 ⟨(ct >>> 20) % TIME_LEVEL, Nat.mod_lt _ (by decide)⟩
  else if (ct >>> 26) % TIME_LEVEL ≠ 0 then
    move_list T' 3 ⟨(ct >>> 26) % TIME_LEVEL, Nat.mod_lt _ (by decide)⟩
  else T'

/-- `timer_execute` dispatches the near slot of the current tick.  The C
`while` re-checks the slot after `dispatch_list`, but dispatching (a
mailbox push) cannot insert into the wheel, so a single clear empties the
slot; the dispatched nodes are returned. -/
def timer_execute (T : Timer) : List TimerNode × Timer :=
  let idx : Fin TIME_NEAR :=
    ⟨T.time % TIME_NEAR, Nat.mod_lt _ (by decide)⟩
  (T.near idx, { T with near := Function.update T.near idx [] })

/-- Each fired node becomes a PTYPE_RESPONSE message with NULL data pushed
to its target handle (`dispatch_list`). -/
def dispatch_list (nodes : List TimerNode) : List (Nat × SkynetMessage) :=
  nodes.map (fun n =>
    (n.handle, ⟨0, n.session, none, PTYPE_RESPONSE <<< MESSAGE_TYPE_SHIFT⟩))

def timer_update (T : Timer) : List TimerNode × Timer :=
  -- try to dispatch timeout 0 (rare condition); shift; dispatch again
  let r1 := timer_execute T
  let T2 := timer_shift r1.2
  let r2 := timer_execute T2
  (r1.1 ++ r2.1, r2.2)

def timer_updates (T : Timer) : Nat → Timer
  | 0 => T
  | k + 1 => (timer_update (timer_updates T k)).2

/-- Membership of a node anywhere in the wheel. -/
def memT (n : TimerNode) (T : Timer) : Prop :=
  (∃ idx, n ∈ T.near idx) ∨ (∃ i idx, n ∈ T.t i idx)

/-- Invariant of the near wheel: a node sits in the slot of its expiry's
low byte, inside the current 256-tick block, and has not expired. -/
def nearInv (T : Timer) : Prop :=
  ∀ (idx : Fin TIME_NEAR) (n : TimerNode), n ∈ T.near idx →
    n.expire % TIME_NEAR = idx.val ∧
    n.expire / TIME_NEAR = T.time / TIME_NEAR ∧
    T.time ≤ n.expire

/-- Invariant of cascade wheel `i`: the node's slot is the matching 6-bit
window of its expiry, the expiry lies in a strictly future `2^(8+6i)`
block, and (below the outermost wheel) in the current `2^(14+6i)` block. -/
def levelInv (T : Timer) : Prop :=
  ∀ (i : Fin 4) (idx : Fin TIME_LEVEL) (n : TimerNode), n ∈ T.t i idx →
    (n.expire / 2 ^ (8 + 6 * i.val)) % TIME_LEVEL = idx.val ∧
    T.time / 2 ^ (8 + 6 * i.val) < n.expire / 2 ^ (8 + 6 * i.val) ∧
    (i.val < 3 →
      n.expire / 2 ^ (14 + 6 * i.val) = T.time / 2 ^ (14 + 6 * i.val)) ∧
    n.expire < 2 ^ 32

def TimerInv (T : Timer) : Prop :=
  T.time < 2 ^ 32 ∧ nearInv T ∧ levelInv T

end Skynet

namespace Skynet

/-! ## Theorems -/

/-- C10: `skynet_context_newsession` always returns a session `≥ 1`; in the
non-overflowing range the counter increments by one and that value is
returned; when the increment overflows to a non-positive value the counter
is reset and `1` is returned.  Session `0` is never handed out. -/
theorem newsession_positive (s : Int) (h1 : -(2 ^ 31) ≤ s) (h2 : s < 2 ^ 31) :
    1 ≤ (skynet_context_newsession s).1 ∧
    (0 ≤ s → s + 1 < 2 ^ 31 → skynet_context_newsession s = (s + 1, s + 1)) ∧
    (s + 1 = 2 ^ 31 ∨ s + 1 ≤ 0 → skynet_context_newsession s = (1, 1)) := by
  unfold skynet_context_newsession wrap32
  dsimp only
  constructor
  · split <;> omega
  · constructor
    · intro h3 h4
      have : (s + 1 + 2 ^ 31) % 2 ^ 32 - 2 ^ 31 = s + 1 := by omega
      rw [this]
      split <;> [omega; rfl]
    · intro h3
      have : (s + 1 + 2 ^ 31) % 2 ^ 32 - 2 ^ 31 ≤ 0 := by omega
      split <;> [rfl; omega]

theorem newsession_positive_witness :
    1 ≤ (skynet_context_newsession (2 ^ 31 - 1)).1 ∧
    skynet_context_newsession (2 ^ 31 - 1) = (1, 1) := by
  have h := newsession_positive (2 ^ 31 - 1) (by decide) (by decide)
  exact ⟨h.1, h.2.2 (by decide)⟩

/-- C9: `enable_write` is state-deduplicated: after a first call with flag
`x`, the stored `writing` flag equals `x`, and a second call with the same
flag performs no syscall and leaves the socket unchanged; across the two
calls at most one syscall happens. -/
theorem enable_write_dedup (s : CSocket) (x : Bool) :
    (enable_write s x).1.writing = x ∧
    enable_write (enable_write s x).1 x = ((enable_write s x).1, false) ∧
    ((if (enable_write s x).2 then 1 else 0) +
      (if (enable_write (enable_write s x).1 x).2 then 1 else 0)) ≤ 1 := by
  unfold enable_write
  by_cases h : s.writing = x
  · simp [h]
  · simp [h]

theorem newsession_ge_one (s : Int) : 1 ≤ (skynet_context_newsession s).1 := by
  unfold skynet_context_newsession
  dsimp only
  split <;> omega

/-- C1 counterexample: a send to destination 0 with no payload returns the
session and pushes nothing at all — in particular the sender receives no
synthesized PTYPE_ERROR; and a send to a retired (non-grabbable) handle
returns -1, again pushing nothing. -/
theorem send_invalid_no_ptype_error :
    skynet_send (1 <<< 24) (fun _ => false) (some ⟨5, 0⟩) 5 0 0 3 none 0 =
      some (3, [], []) ∧
    skynet_send (1 <<< 24) (fun _ => false) (some ⟨5, 0⟩) 5 9 0 3
        (some [1]) 1 = some (-1, [], []) := by
  constructor <;> rfl

/-- C1 amended: a send to destination 0 or to a retired handle enqueues
nothing and returns -1 at the call site (except that a payloadless send to
0 returns the session); the synthesized PTYPE_ERROR carrying the original
session and no payload is produced by `drop_message` when the retired
service's mailbox is drained: each dropped message `msg` causes
`skynet_send(NULL, retired, msg->source, PTYPE_ERROR, msg->session, NULL, 0)`
to push exactly that error message to the original sender. -/
theorem invalid_handle_error_path
    (harbor : Nat) (live : Nat → Bool) (dh : Nat) (msg : SkynetMessage)
    (context : Option SkynetContext) (src dst tp : Nat) (sess : Int)
    (data : Option (List Nat)) (sz : Nat)
    (hdh : dh ≠ 0)
    (hsrc0 : msg.source ≠ 0)
    (hlive : live msg.source = true)
    (hrem : skynet_harbor_message_isremote harbor msg.source = false)
    (hsz : sz &&& MESSAGE_TYPE_MASK = sz)
    (halloc : tp &&& PTYPE_TAG_ALLOCSESSION = 0)
    (hs : src ≠ 0)
    (hdst : dst = 0 ∨
      (skynet_harbor_message_isremote harbor dst = false ∧ live dst = false)) :
    drop_message harbor live dh msg =
      some (msg.session,
        [(msg.source,
          ⟨dh, msg.session, none, PTYPE_ERROR <<< MESSAGE_TYPE_SHIFT⟩)], []) ∧
    ∃ r : Int,
      skynet_send harbor live context src dst tp sess data sz =
        some (r, [], []) ∧
      (dst ≠ 0 ∨ data.isSome = true → r = -1) := by
  constructor
  · unfold drop_message skynet_send filter_args
    simp only [show ((0 : Nat) &&& MESSAGE_TYPE_MASK ≠ 0) = False by simp,
      if_false]
    have h1 : PTYPE_ERROR &&& PTYPE_TAG_ALLOCSESSION = 0 := by decide
    have h2 : PTYPE_ERROR &&& 0xff = PTYPE_ERROR := by decide
    simp only [h1, h2, if_neg (by decide : ¬(0:Nat) ≠ 0)]
    simp only [if_neg hdh, if_neg hsrc0, hrem, hlive]
    simp [Bool.false_eq_true, if_false]
  · unfold skynet_send filter_args
    simp only [hsz, ne_eq, not_true_eq_false, if_false, halloc,
      if_neg (by simp : ¬(0:Nat) ≠ 0), if_neg hs]
    rcases hdst with h | ⟨hrem2, hdead⟩
    · subst h
      simp only [if_pos rfl]
      rcases data with _ | d
      · exact ⟨sess, rfl, by intro h; rcases h with h | h <;> simp_all⟩
      · exact ⟨-1, rfl, fun _ => rfl⟩
    · by_cases hz : dst = 0
      · subst hz
        simp only [if_pos rfl]
        rcases data with _ | d
        · exact ⟨sess, rfl, by intro h; rcases h with h | h <;> simp_all⟩
        · exact ⟨-1, rfl, fun _ => rfl⟩
      · simp only [if_neg hz, hrem2, Bool.false_eq_true, if_false, hdead]
        exact ⟨-1, rfl, fun _ => rfl⟩

theorem invalid_handle_error_path_witness :
    drop_message (1 <<< 24) (fun _ => true) 9 ⟨3, 7, none, 0⟩ =
      some (7, [(3, ⟨9, 7, none, PTYPE_ERROR <<< MESSAGE_TYPE_SHIFT⟩)], []) ∧
    ∃ r : Int,
      skynet_send (1 <<< 24) (fun _ => true) none 4 0 0 5 (some [2]) 1 =
        some (r, [], []) ∧
      ((0 : Nat) ≠ 0 ∨ (some [2] : Option (List Nat)).isSome = true →
        r = -1) :=
  invalid_handle_error_path (1 <<< 24) (fun _ => true) 9 ⟨3, 7, none, 0⟩
    none 4 0 0 5 (some [2]) 1 (by decide) (by decide) rfl (by decide)
    (by decide) (by decide) (by decide) (Or.inl rfl)

theorem filter_args_session_nonneg (context : Option SkynetContext)
    (tp : Nat) (sess : Int) (data : Option (List Nat)) (sz : Nat)
    (hsess : 0 ≤ sess) (c' : Option SkynetContext) (s' : Int)
    (d' : Option (List Nat)) (z' : Nat)
    (h : filter_args context tp sess data sz = some (c', s', d', z')) :
    0 ≤ s' := by
  unfold filter_args at h
  by_cases hA : tp &&& PTYPE_TAG_ALLOCSESSION ≠ 0
  · rw [if_pos hA] at h
    rcases context with _ | c
    · exact absurd h (by simp)
    · simp only [Option.some.injEq, Prod.mk.injEq] at h
      have := newsession_ge_one c.session_id
      omega
  · rw [if_neg hA] at h
    simp only [Option.some.injEq, Prod.mk.injEq] at h
    omega

/-- C6: `skynet_send` rejects with status -2 (MessageTooLarge), enqueuing
nothing, exactly when the payload size exceeds `SIZE_MAX >> 8`; every
`sz ≤ SIZE_MAX >> 8` passes the size check. -/
theorem message_too_large_iff
    (harbor : Nat) (live : Nat → Bool) (context : Option SkynetContext)
    (src dst tp : Nat) (sess : Int) (data : Option (List Nat)) (sz : Nat)
    (hsz : sz < 2 ^ 64) (hsess : 0 ≤ sess) :
    (skynet_send harbor live context src dst tp sess data sz =
      some (-2, [], [])) ↔ MESSAGE_TYPE_MASK < sz := by
  have hmask : sz &&& MESSAGE_TYPE_MASK = sz % 2 ^ 56 := by
    have := Nat.and_pow_two_sub_one_eq_mod sz 56
    simpa [MESSAGE_TYPE_MASK] using this
  constructor
  · intro h
    by_contra hle
    have hsmall : sz ≤ MESSAGE_TYPE_MASK := Nat.le_of_not_lt hle
    have heq : sz &&& MESSAGE_TYPE_MASK = sz := by
      rw [hmask]
      exact Nat.mod_eq_of_lt (by
        have : MESSAGE_TYPE_MASK = 2 ^ 56 - 1 := rfl
        omega)
    unfold skynet_send at h
    rw [if_neg (by simp [heq])] at h
    -- every surviving branch returns none, -1, or a session ≥ 0, never -2
    rcases hF : filter_args context tp sess data sz with _ | ⟨c', s', d', z'⟩
    · rw [hF] at h
      exact absurd h (by simp)
    · have hs' : 0 ≤ s' :=
        filter_args_session_nonneg context tp sess data sz hsess c' s' d' z' hF
      rw [hF] at h
      dsimp only at h
      repeat' split at h
      all_goals
        simp only [Option.some.injEq, Prod.mk.injEq, reduceCtorEq] at h
      all_goals omega
  · intro h
    have hne : sz &&& MESSAGE_TYPE_MASK ≠ sz := by
      rw [hmask]
      intro hcontra
      have h2 : sz < 2 ^ 56 := by
        rw [← hcontra]
        exact Nat.mod_lt _ (by decide)
      have : MESSAGE_TYPE_MASK = 2 ^ 56 - 1 := rfl
      omega
    unfold skynet_send
    rw [if_pos hne]

theorem message_too_large_iff_witness :
    skynet_send (1 <<< 24) (fun _ => true) none 1 2 0 0 none (2 ^ 56) =
      some (-2, [], []) ∧ MESSAGE_TYPE_MASK < 2 ^ 56 :=
  ⟨(message_too_large_iff (1 <<< 24) (fun _ => true) none 1 2 0 0 none
      (2 ^ 56) (by norm_num) (by norm_num)).mpr (by decide),
   by decide⟩

theorem dispatch_more_eq (k : Nat) (q : List SkynetMessage) :
    dispatch_more k q = (min k q.length, q.drop (min k q.length)) := by
  induction k generalizing q with
  | zero => simp [dispatch_more]
  | succ k ih =>
    cases q with
    | nil => simp [dispatch_more]
    | cons m rest =>
      simp only [dispatch_more, ih rest, List.length_cons]
      have hmin : min (k + 1) (rest.length + 1) = min k rest.length + 1 := by
        omega
      rw [hmin, List.drop_succ_cons]

/-- C2 counterexample: on a mailbox of length 2, a weight-0 turn handles a
single message and leaves one behind — it does not drain the entire
mailbox (because the loop bound is the length sampled after the first
pop). -/
theorem dispatch_weight_zero_not_drain :
    message_dispatch_turn [⟨1, 0, none, 0⟩, ⟨2, 0, none, 0⟩] 0 =
      (1, [⟨2, 0, none, 0⟩]) ∧
    (message_dispatch_turn [⟨1, 0, none, 0⟩, ⟨2, 0, none, 0⟩] 0).2 ≠ [] := by
  constructor <;> decide

/-- C2 amended: in one turn on a non-empty mailbox of length L, a weight -1
worker handles exactly one message and leaves the rest; a worker with
weight k ≥ 0 handles `max 1 ((L-1) >> k)` messages — the loop bound is the
queue length sampled after the first pop — and leaves the rest (so weight 0
handles L-1 messages when L ≥ 2, all but the most recent, and 1 when
L = 1). -/
theorem dispatch_turn_weights (q : List SkynetMessage) (weight : Int)
    (hq : q ≠ []) :
    (weight < 0 → message_dispatch_turn q weight = (1, q.tail)) ∧
    (0 ≤ weight →
      (message_dispatch_turn q weight).1 =
        max 1 ((q.length - 1) >>> weight.toNat) ∧
      (message_dispatch_turn q weight).2 =
        q.drop (message_dispatch_turn q weight).1) := by
  rcases q with _ | ⟨m, rest⟩
  · exact absurd rfl hq
  constructor
  · intro hw
    dsimp only [message_dispatch_turn]
    rw [if_neg (by omega : ¬(0 : Int) ≤ weight)]
    simp [dispatch_more]
  · intro hw
    have hshift : rest.length >>> weight.toNat ≤ rest.length := by
      rw [Nat.shiftRight_eq_div_pow]
      exact Nat.div_le_self _ _
    dsimp only [message_dispatch_turn]
    rw [if_pos hw]
    simp only [dispatch_more_eq, List.length_cons, Nat.add_sub_cancel]
    generalize hn : rest.length >>> weight.toNat = n at hshift ⊢
    have hmin : min (n - 1) rest.length = n - 1 := by omega
    rw [hmin]
    refine ⟨by omega, ?_⟩
    simp only [List.drop_succ_cons]

theorem dispatch_turn_weights_witness :
    (-1 < 0 →
      message_dispatch_turn [⟨1, 0, none, 0⟩, ⟨2, 0, none, 0⟩] (-1) =
        (1, [⟨2, 0, none, 0⟩])) ∧
    (0 ≤ (-1 : Int) →
      (message_dispatch_turn [⟨1, 0, none, 0⟩, ⟨2, 0, none, 0⟩] (-1)).1 =
        max 1 (([⟨1, 0, none, 0⟩,
          (⟨2, 0, none, 0⟩ : SkynetMessage)].length - 1) >>>
            (-1 : Int).toNat) ∧
      (message_dispatch_turn [⟨1, 0, none, 0⟩, ⟨2, 0, none, 0⟩] (-1)).2 =
        [⟨1, 0, none, 0⟩, (⟨2, 0, none, 0⟩ : SkynetMessage)].drop
          (message_dispatch_turn [⟨1, 0, none, 0⟩,
            ⟨2, 0, none, 0⟩] (-1)).1) := by
  have h := dispatch_turn_weights [⟨1, 0, none, 0⟩, ⟨2, 0, none, 0⟩] (-1)
    (by decide)
  exact ⟨fun _ => by rw [h.1 (by decide)]; rfl, h.2⟩

theorem getD_set_self_of_lt {α : Type} (l : List α) (i : Nat) (a d : α)
    (h : i < l.length) : (l.set i a).getD i d = a := by
  rw [List.getD_eq_getElem?_getD, List.getElem?_set_self h]
  rfl

theorem getD_set_ne_of_ne {α : Type} (l : List α) (i j : Nat) (a d : α)
    (h : i ≠ j) : (l.set i a).getD j d = l.getD j d := by
  rw [List.getD_eq_getElem?_getD, List.getElem?_set_ne h,
    ← List.getD_eq_getElem?_getD]

theorem mq_length_lt (q : MessageQueue) (h : mqWF q) :
    skynet_mq_length q < q.cap := by
  obtain ⟨_, hh, ht, hc⟩ := h
  unfold skynet_mq_length
  split <;> omega

theorem mq_slot_tail (q : MessageQueue) (h : mqWF q) :
    (q.head + skynet_mq_length q) % q.cap = q.tail := by
  obtain ⟨_, hh, ht, hc⟩ := h
  unfold skynet_mq_length
  split
  · rw [show q.head + (q.tail - q.head) = q.tail by omega]
    exact Nat.mod_eq_of_lt ht
  · rw [show q.head + (q.tail + q.cap - q.head) = q.tail + q.cap by omega,
      Nat.add_mod_right]
    exact Nat.mod_eq_of_lt ht

theorem mq_slot_ne_tail (q : MessageQueue) (h : mqWF q) (i : Nat)
    (hi : i < skynet_mq_length q) : (q.head + i) % q.cap ≠ q.tail := by
  intro he
  have h1 := mq_slot_tail q h
  have hL := mq_length_lt q h
  have h2 : (q.head + i) % q.cap = (q.head + skynet_mq_length q) % q.cap :=
    he.trans h1.symm
  have h3 : i % q.cap = skynet_mq_length q % q.cap :=
    Nat.ModEq.add_left_cancel' q.head h2
  rw [Nat.mod_eq_of_lt (lt_trans hi hL), Nat.mod_eq_of_lt hL] at h3
  omega

theorem mq_push_fst (q : MessageQueue) (m : SkynetMessage) :
    (skynet_mq_push q m).1 =
      { (if q.head = (if q.tail + 1 ≥ q.cap then 0 else q.tail + 1) then
          expand_queue
            { q with queue := q.queue.set q.tail m,
                     tail := if q.tail + 1 ≥ q.cap then 0 else q.tail + 1 }
        else
          { q with queue := q.queue.set q.tail m,
                   tail := if q.tail + 1 ≥ q.cap then 0 else q.tail + 1 })
        with in_global := true } := by
  have key : ∀ p : MessageQueue,
      (if p.in_global = false then ({ p with in_global := true }, true)
       else (p, false)).1 = { p with in_global := true } := by
    intro p
    by_cases hg : p.in_global = false
    · rw [if_pos hg]
    · rw [if_neg hg]
      have hg' : p.in_global = true := by
        revert hg
        cases p.in_global <;> simp
      cases p
      simp_all
  unfold skynet_mq_push
  dsimp only
  exact key _

theorem mq_push_write (q : MessageQueue) (m : SkynetMessage) (h : mqWF q)
    (hne : q.head ≠ (if q.tail + 1 ≥ q.cap then 0 else q.tail + 1)) :
    mqToList { q with queue := q.queue.set q.tail m,
                      tail := if q.tail + 1 ≥ q.cap then 0
                              else q.tail + 1 } =
      mqToList q ++ [m] ∧
    mqWF { q with queue := q.queue.set q.tail m,
                  tail := if q.tail + 1 ≥ q.cap then 0 else q.tail + 1 } := by
  obtain ⟨hlen, hh, ht, hc⟩ := h
  have hL1 : skynet_mq_length
      { q with queue := q.queue.set q.tail m,
               tail := if q.tail + 1 ≥ q.cap then 0 else q.tail + 1 } =
      skynet_mq_length q + 1 := by
    unfold skynet_mq_length
    dsimp only
    revert hne
    split_ifs <;> omega
  constructor
  · unfold mqToList
    rw [hL1, List.range_succ, List.map_append]
    dsimp only
    congr 1
    · apply List.map_congr_left
      intro i hi
      rw [List.mem_range] at hi
      exact getD_set_ne_of_ne q.queue q.tail ((q.head + i) % q.cap) m
        mdefault (fun he => mq_slot_ne_tail q ⟨hlen, hh, ht, hc⟩ i hi he.symm)
    · simp only [List.map_cons, List.map_nil]
      rw [mq_slot_tail q ⟨hlen, hh, ht, hc⟩]
      rw [getD_set_self_of_lt q.queue q.tail m mdefault (hlen ▸ ht)]
  · refine ⟨by simp [hlen], hh, ?_, hc⟩
    dsimp only
    split <;> omega

theorem mq_push_grow (q : MessageQueue) (m : SkynetMessage) (h : mqWF q)
    (heq : q.head = (if q.tail + 1 ≥ q.cap then 0 else q.tail + 1)) :
    mqToList (expand_queue
      { q with queue := q.queue.set q.tail m,
               tail := if q.tail + 1 ≥ q.cap then 0 else q.tail + 1 }) =
      mqToList q ++ [m] ∧
    mqWF (expand_queue
      { q with queue := q.queue.set q.tail m,
               tail := if q.tail + 1 ≥ q.cap then 0 else q.tail + 1 }) ∧
    skynet_mq_length q = q.cap - 1 := by
  obtain ⟨hlen, hh, ht, hc⟩ := h
  have hLfull : skynet_mq_length q = q.cap - 1 := by
    unfold skynet_mq_length
    revert heq
    split_ifs <;> omega
  have hcap1 : (q.queue.set q.tail m).length = q.cap := by simp [hlen]
  refine ⟨?_, ?_, hLfull⟩
  · unfold expand_queue mqToList
    dsimp only
    rw [show skynet_mq_length
        { queue := _, cap := q.cap * 2, head := 0, tail := q.cap,
          in_global := q.in_global } = q.cap from by
      unfold skynet_mq_length; simp]
    have hstep : ∀ i < q.cap,
        ((List.range q.cap).map
            (fun i => (q.queue.set q.tail m).getD ((q.head + i) % q.cap)
              mdefault) ++
          List.replicate q.cap mdefault).getD ((0 + i) % (q.cap * 2))
            mdefault =
        (q.queue.set q.tail m).getD ((q.head + i) % q.cap) mdefault := by
      intro i hi
      have hmod : (0 + i) % (q.cap * 2) = i := by
        rw [Nat.zero_add]
        exact Nat.mod_eq_of_lt (by omega)
      rw [hmod, List.getD_eq_getElem?_getD, List.getElem?_append]
      rw [if_pos (by simp [hi])]
      rw [List.getElem?_map, List.getElem?_range hi]
      rfl
    rw [List.map_congr_left (fun i hi => hstep i (List.mem_range.mp hi))]
    -- same content argument as the no-grow case, with length cap - 1
    have hrange : List.range q.cap =
        List.range (skynet_mq_length q) ++ [skynet_mq_length q] := by
      rw [show q.cap = skynet_mq_length q + 1 from by omega, List.range_succ]
    rw [hrange, List.map_append]
    congr 1
    · apply List.map_congr_left
      intro i hi
      rw [List.mem_range] at hi
      exact getD_set_ne_of_ne q.queue q.tail ((q.head + i) % q.cap) m
        mdefault (fun he => mq_slot_ne_tail q ⟨hlen, hh, ht, hc⟩ i hi he.symm)
    · simp only [List.map_cons, List.map_nil]
      rw [mq_slot_tail q ⟨hlen, hh, ht, hc⟩]
      rw [getD_set_self_of_lt q.queue q.tail m mdefault (hlen ▸ ht)]
  · unfold expand_queue
    refine ⟨?_, ?_, ?_, ?_⟩
    · simp only [List.length_append, List.length_map, List.length_range,
        List.length_replicate]
      omega
    · dsimp only
      omega
    · dsimp only
      omega
    · dsimp only
      omega

/-- C5: a push writes the message at `tail` and advances `tail` modulo the
capacity; the queue doubles its capacity (64 becomes 128) exactly when the
push makes `head == tail`; and in either case the logical FIFO content of
the ring afterwards is the old content with the new message appended (the
growth copy preserves FIFO order). -/
theorem mq_push_spec (q : MessageQueue) (m : SkynetMessage) (h : mqWF q) :
    mqToList (skynet_mq_push q m).1 = mqToList q ++ [m] ∧
    (skynet_mq_push q m).1.cap =
      (if q.head = (if q.tail + 1 ≥ q.cap then 0 else q.tail + 1)
       then 2 * q.cap else q.cap) ∧
    (q.head ≠ (if q.tail + 1 ≥ q.cap then 0 else q.tail + 1) →
      (skynet_mq_push q m).1.tail = (q.tail + 1) % q.cap ∧
      (skynet_mq_push q m).1.head = q.head) ∧
    mqWF (skynet_mq_push q m).1 := by
  rw [mq_push_fst q m]
  by_cases hcase : q.head = (if q.tail + 1 ≥ q.cap then 0 else q.tail + 1)
  · obtain ⟨h1, h2, _⟩ := mq_push_grow q m h hcase
    rw [if_pos hcase]
    refine ⟨?_, ?_, fun hne => absurd hcase hne, ?_⟩
    · rw [show mqToList { expand_queue _ with in_global := true } =
          mqToList (expand_queue _) from rfl]
      exact h1
    · rw [if_pos hcase]
      unfold expand_queue
      dsimp only
      omega
    · obtain ⟨w1, w2, w3, w4⟩ := h2
      exact ⟨w1, w2, w3, w4⟩
  · obtain ⟨h1, h2⟩ := mq_push_write q m h hcase
    rw [if_neg hcase]
    obtain ⟨_, hh, ht, hc⟩ := h
    refine ⟨h1, by rw [if_neg hcase], fun _ => ⟨?_, rfl⟩, h2⟩
    dsimp only
    split <;> rename_i hig
    · rw [show q.tail + 1 = q.cap from by omega, Nat.mod_self]
    · rw [Nat.mod_eq_of_lt (by omega)]

theorem mq_push_spec_witness :
    mqWF (skynet_mq_create 0) ∧
    (mqToList (skynet_mq_push (skynet_mq_create 0) mdefault).1 =
      mqToList (skynet_mq_create 0) ++ [mdefault] ∧
    (skynet_mq_push (skynet_mq_create 0) mdefault).1.cap =
      (if (skynet_mq_create 0).head =
          (if (skynet_mq_create 0).tail + 1 ≥ (skynet_mq_create 0).cap
           then 0 else (skynet_mq_create 0).tail + 1)
       then 2 * (skynet_mq_create 0).cap else (skynet_mq_create 0).cap) ∧
    ((skynet_mq_create 0).head ≠
        (if (skynet_mq_create 0).tail + 1 ≥ (skynet_mq_create 0).cap
         then 0 else (skynet_mq_create 0).tail + 1) →
      (skynet_mq_push (skynet_mq_create 0) mdefault).1.tail =
        ((skynet_mq_create 0).tail + 1) % (skynet_mq_create 0).cap ∧
      (skynet_mq_push (skynet_mq_create 0) mdefault).1.head =
        (skynet_mq_create 0).head) ∧
    mqWF (skynet_mq_push (skynet_mq_create 0) mdefault).1) :=
  ⟨by decide, mq_push_spec (skynet_mq_create 0) mdefault (by decide)⟩

theorem sorted_getD_lt {α : Type} [LinearOrder α] [Inhabited α]
    (names : List (HandleName α)) (hs : NamesSorted names) (i j : Nat)
    (hij : i < j) (hj : j < names.length) :
    (names.getD i (hnDefault α)).name < (names.getD j (hnDefault α)).name := by
  rw [List.getD_eq_getElem names _ (lt_trans hij hj),
    List.getD_eq_getElem names _ hj]
  exact List.pairwise_iff_getElem.mp hs i j (lt_trans hij hj) hj hij

theorem insert_loop_spec {α : Type} [LinearOrder α] [Inhabited α]
    (names : List (HandleName α)) (nm : α) (hs : NamesSorted names) :
    ∀ (n : Nat) (b e : Int), (e + 1 - b).toNat = n →
      0 ≤ b → b ≤ e + 1 → e ≤ (names.length : Int) - 1 →
      (∀ i : Nat, i < names.length → (i : Int) < b →
        (names.getD i (hnDefault α)).name < nm) →
      (∀ i : Nat, i < names.length → e < (i : Int) →
        nm < (names.getD i (hnDefault α)).name) →
      (match _insert_name_loop names nm b e with
       | none =>
           ∃ k, k < names.length ∧ (names.getD k (hnDefault α)).name = nm
       | some b' => 0 ≤ b' ∧ b' ≤ (names.length : Int) ∧
           (∀ i : Nat, i < names.length → (i : Int) < b' →
             (names.getD i (hnDefault α)).name < nm) ∧
           (∀ i : Nat, i < names.length → b' ≤ (i : Int) →
             nm < (names.getD i (hnDefault α)).name)) := by
  intro n
  induction n using Nat.strong_induction_on with
  | _ n ih =>
    intro b e hn hb hbe he hlow hhigh
    rw [_insert_name_loop]
    by_cases hle : b ≤ e
    · rw [if_pos hle]
      have hmid1 : b ≤ (b + e) / 2 := by omega
      have hmid2 : (b + e) / 2 ≤ e := by omega
      have hmidlt : ((b + e) / 2).toNat < names.length := by omega
      dsimp only
      cases hcmp : compare (names.getD ((b + e) / 2).toNat
          (hnDefault α)).name nm with
      | eq =>
        exact ⟨((b + e) / 2).toNat, hmidlt, compare_eq_iff_eq.mp hcmp⟩
      | lt =>
        have hmidname : (names.getD ((b + e) / 2).toNat
            (hnDefault α)).name < nm := compare_lt_iff_lt.mp hcmp
        refine ih ((e + 1 - ((b + e) / 2 + 1)).toNat) (by omega)
          ((b + e) / 2 + 1) e rfl (by omega) (by omega) he ?_ hhigh
        intro i hi hib
        rcases Nat.lt_or_ge i (((b + e) / 2).toNat) with hlt | hge
        · exact lt_trans (sorted_getD_lt names hs i _ hlt hmidlt) hmidname
        · have heqi : i = ((b + e) / 2).toNat := by omega
          rw [heqi]
          exact hmidname
      | gt =>
        have hnm : nm < (names.getD ((b + e) / 2).toNat
            (hnDefault α)).name := compare_gt_iff_gt.mp hcmp
        refine ih (((b + e) / 2 - 1 + 1 - b).toNat) (by omega) b
          ((b + e) / 2 - 1) rfl hb (by omega) (by omega) hlow ?_
        intro i hi hib
        have hge : ((b + e) / 2).toNat ≤ i := by omega
        rcases eq_or_lt_of_le hge with heqi | hlti
        · rw [← heqi]
          exact hnm
        · exact lt_trans hnm (sorted_getD_lt names hs _ i hlti hi)
    · rw [if_neg hle]
      exact ⟨hb, by omega, fun i hi hib => hlow i hi hib,
        fun i hi hib => hhigh i hi (by omega)⟩

theorem findname_loop_spec {α : Type} [LinearOrder α] [Inhabited α]
    (names : List (HandleName α)) (nm : α) (hs : NamesSorted names) :
    ∀ (n : Nat) (b e : Int), (e + 1 - b).toNat = n →
      0 ≤ b → b ≤ e + 1 → e ≤ (names.length : Int) - 1 →
      (∀ i : Nat, i < names.length → (i : Int) < b →
        (names.getD i (hnDefault α)).name < nm) →
      (∀ i : Nat, i < names.length → e < (i : Int) →
        nm < (names.getD i (hnDefault α)).name) →
      ((∃ k, k < names.length ∧ (names.getD k (hnDefault α)).name = nm ∧
          skynet_handle_findname_loop names nm b e =
            (names.getD k (hnDefault α)).handle) ∨
       ((∀ k, k < names.length → (names.getD k (hnDefault α)).name ≠ nm) ∧
          skynet_handle_findname_loop names nm b e = 0)) := by
  intro n
  induction n using Nat.strong_induction_on with
  | _ n ih =>
    intro b e hn hb hbe he hlow hhigh
    rw [skynet_handle_findname_loop]
    by_cases hle : b ≤ e
    · rw [if_pos hle]
      have hmid1 : b ≤ (b + e) / 2 := by omega
      have hmid2 : (b + e) / 2 ≤ e := by omega
      have hmidlt : ((b + e) / 2).toNat < names.length := by omega
      dsimp only
      cases hcmp : compare (names.getD ((b + e) / 2).toNat
          (hnDefault α)).name nm with
      | eq =>
        exact Or.inl ⟨((b + e) / 2).toNat, hmidlt,
          compare_eq_iff_eq.mp hcmp, rfl⟩
      | lt =>
        have hmidname : (names.getD ((b + e) / 2).toNat
            (hnDefault α)).name < nm := compare_lt_iff_lt.mp hcmp
        refine ih ((e + 1 - ((b + e) / 2 + 1)).toNat) (by omega)
          ((b + e) / 2 + 1) e rfl (by omega) (by omega) he ?_ hhigh
        intro i hi hib
        rcases Nat.lt_or_ge i (((b + e) / 2).toNat) with hlt | hge
        · exact lt_trans (sorted_getD_lt names hs i _ hlt hmidlt) hmidname
        · have heqi : i = ((b + e) / 2).toNat := by omega
          rw [heqi]
          exact hmidname
      | gt =>
        have hnm : nm < (names.getD ((b + e) / 2).toNat
            (hnDefault α)).name := compare_gt_iff_gt.mp hcmp
        refine ih (((b + e) / 2 - 1 + 1 - b).toNat) (by omega) b
          ((b + e) / 2 - 1) rfl hb (by omega) (by omega) hlow ?_
        intro i hi hib
        have hge : ((b + e) / 2).toNat ≤ i := by omega
        rcases eq_or_lt_of_le hge with heqi | hlti
        · rw [← heqi]
          exact hnm
        · exact lt_trans hnm (sorted_getD_lt names hs _ i hlti hi)
    · rw [if_neg hle]
      refine Or.inr ⟨?_, rfl⟩
      intro k hk
      rcases Int.lt_or_le (k : Int) b with hkb | hkb
      · exact ne_of_lt (hlow k hk hkb)
      · exact (ne_of_gt (hhigh k hk (by omega)))

theorem sorted_insert {α : Type} [LinearOrder α] [Inhabited α]
    (names : List (HandleName α)) (hs : NamesSorted names) (nm : α)
    (handle : Nat) (b' : Nat) (hb' : b' ≤ names.length)
    (hlow : ∀ i, i < names.length → i < b' →
      (names.getD i (hnDefault α)).name < nm)
    (hhigh : ∀ i, i < names.length → b' ≤ i →
      nm < (names.getD i (hnDefault α)).name) :
    NamesSorted (names.take b' ++ ⟨nm, handle⟩ :: names.drop b') := by
  unfold NamesSorted at *
  rw [List.pairwise_append]
  refine ⟨hs.sublist (List.take_sublist b' names), ?_, ?_⟩
  · rw [List.pairwise_cons]
    constructor
    · intro a ha
      obtain ⟨j, hj, haj⟩ := List.mem_iff_getElem.mp ha
      have hjlen : b' + j < names.length := by
        rw [List.length_drop] at hj
        omega
      have haval : a = names.getD (b' + j) (hnDefault α) := by
        rw [List.getD_eq_getElem names _ hjlen, ← haj, List.getElem_drop]
      rw [haval]
      exact hhigh (b' + j) hjlen (by omega)
    · exact hs.sublist (List.drop_sublist b' names)
  · intro a ha c hc
    obtain ⟨i, hi, hai⟩ := List.mem_iff_getElem.mp ha
    have hilen : i < names.length := by
      rw [List.length_take] at hi
      omega
    have hib : i < b' := by
      rw [List.length_take] at hi
      omega
    have haval : a = names.getD i (hnDefault α) := by
      rw [List.getD_eq_getElem names _ hilen, ← hai, List.getElem_take]
    rcases List.mem_cons.mp hc with rfl | hcd
    · rw [haval]
      exact hlow i hilen hib
    · obtain ⟨j, hj, hcj⟩ := List.mem_iff_getElem.mp hcd
      have hjlen : b' + j < names.length := by
        rw [List.length_drop] at hj
        omega
      have hcval : c = names.getD (b' + j) (hnDefault α) := by
        rw [List.getD_eq_getElem names _ hjlen, ← hcj, List.getElem_drop]
      rw [haval, hcval]
      exact lt_trans (hlow i hilen hib) (hhigh (b' + j) hjlen (by omega))

theorem insert_list_length {α : Type} (names : List (HandleName α))
    (nm : α) (handle : Nat) (b' : Nat) (hb' : b' ≤ names.length) :
    (names.take b' ++ ⟨nm, handle⟩ :: names.drop b').length =
      names.length + 1 := by
  simp only [List.length_append, List.length_cons, List.length_take,
    List.length_drop]
  omega

theorem insert_list_getD_at {α : Type} [Inhabited α]
    (names : List (HandleName α)) (nm : α) (handle : Nat) (b' : Nat)
    (hb' : b' ≤ names.length) :
    (names.take b' ++ ⟨nm, handle⟩ :: names.drop b').getD b'
      (hnDefault α) = ⟨nm, handle⟩ := by
  rw [List.getD_eq_getElem?_getD,
    List.getElem?_append_right (by rw [List.length_take]; omega)]
  rw [List.length_take, show b' - min b' names.length = 0 from by omega]
  simp

/-- C7: on a sorted name table, `skynet_handle_namehandle` (bind_name)
fails (returns none) exactly when the name is already present; for a name
not yet bound it succeeds, keeps the table sorted, and a subsequent
`skynet_handle_findname` on the new table returns the bound handle. -/
theorem bindname_find_spec {α : Type} [LinearOrder α] [Inhabited α]
    (names : List (HandleName α)) (cap : Nat) (nm : α) (handle : Nat)
    (hs : NamesSorted names) :
    (skynet_handle_namehandle names cap nm handle = none ↔
      nm ∈ names.map HandleName.name) ∧
    (nm ∉ names.map HandleName.name →
      ∃ names' cap',
        skynet_handle_namehandle names cap nm handle = some (names', cap') ∧
        NamesSorted names' ∧
        skynet_handle_findname names' nm = handle) := by
  have hspec := insert_loop_spec names nm hs
    ((((names.length : Int) - 1) + 1 - 0).toNat) 0 ((names.length : Int) - 1)
    rfl (by omega) (by omega) (by omega)
    (fun i hi h => absurd h (by omega))
    (fun i hi h => absurd h (by omega))
  rcases hres : _insert_name_loop names nm 0 ((names.length : Int) - 1)
    with _ | b'
  · -- duplicate found by the insert loop: bind fails, name is present
    rw [hres] at hspec
    obtain ⟨k, hk, hkname⟩ := hspec
    have hmem : nm ∈ names.map HandleName.name := by
      rw [List.mem_map]
      refine ⟨names.getD k (hnDefault α), ?_, hkname⟩
      rw [List.getD_eq_getElem names _ hk]
      exact List.getElem_mem hk
    have hnone : skynet_handle_namehandle names cap nm handle = none := by
      unfold skynet_handle_namehandle _insert_name
      rw [hres]
    exact ⟨⟨fun _ => hmem, fun _ => hnone⟩,
      fun hnot => absurd hmem hnot⟩
  · -- the loop found the insertion point b'
    rw [hres] at hspec
    obtain ⟨hb0, hble, hlow, hhigh⟩ := hspec
    have hsome : skynet_handle_namehandle names cap nm handle =
        some (_insert_name_before names cap nm handle b'.toNat) := by
      unfold skynet_handle_namehandle _insert_name
      rw [hres]
    have hnotmem : nm ∉ names.map HandleName.name := by
      rw [List.mem_map]
      rintro ⟨a, hamem, haname⟩
      obtain ⟨k, hk, hak⟩ := List.mem_iff_getElem.mp hamem
      have hkD : (names.getD k (hnDefault α)).name = nm := by
        rw [List.getD_eq_getElem names _ hk, hak, haname]
      rcases Int.lt_or_le (k : Int) b' with hkb | hkb
      · exact absurd hkD (ne_of_lt (hlow k hk hkb))
      · exact absurd hkD (ne_of_gt (hhigh k hk hkb))
    refine ⟨⟨fun hcontra => ?_, fun hmem => absurd hmem hnotmem⟩,
      fun _ => ?_⟩
    · rw [hsome] at hcontra
      exact absurd hcontra (by simp)
    · have hbn : b'.toNat ≤ names.length := by omega
      have hlowN : ∀ i, i < names.length → i < b'.toNat →
          (names.getD i (hnDefault α)).name < nm :=
        fun i hi hib => hlow i hi (by omega)
      have hhighN : ∀ i, i < names.length → b'.toNat ≤ i →
          nm < (names.getD i (hnDefault α)).name :=
        fun i hi hib => hhigh i hi (by omega)
      have hs' : NamesSorted
          (names.take b'.toNat ++ ⟨nm, handle⟩ :: names.drop b'.toNat) :=
        sorted_insert names hs nm handle b'.toNat hbn hlowN hhighN
      have hfst : (_insert_name_before names cap nm handle b'.toNat).1 =
          names.take b'.toNat ++ ⟨nm, handle⟩ :: names.drop b'.toNat := by
        unfold _insert_name_before
        split <;> rfl
      have hlen' := insert_list_length names nm handle b'.toNat hbn
      have hat := insert_list_getD_at names nm handle b'.toNat hbn
      have hblt : b'.toNat <
          (names.take b'.toNat ++ ⟨nm, handle⟩ :: names.drop b'.toNat).length := by
        omega
      refine ⟨(_insert_name_before names cap nm handle b'.toNat).1,
        (_insert_name_before names cap nm handle b'.toNat).2,
        by rw [hsome], by rw [hfst]; exact hs', ?_⟩
      rw [hfst]
      unfold skynet_handle_findname
      have hfind := findname_loop_spec
        (names.take b'.toNat ++ ⟨nm, handle⟩ :: names.drop b'.toNat) nm hs'
        ((((names.take b'.toNat ++ ⟨nm, handle⟩ ::
            names.drop b'.toNat).length : Int) - 1) + 1 - 0).toNat 0
        (((names.take b'.toNat ++ ⟨nm, handle⟩ ::
            names.drop b'.toNat).length : Int) - 1)
        rfl (by omega) (by omega) (by omega)
        (fun i hi h => absurd h (by omega))
        (fun i hi h => absurd h (by omega))
      rcases hfind with ⟨k, hk, hkname, hkres⟩ | ⟨habsent, _⟩
      · have hkb : k = b'.toNat := by
          by_contra hne
          rcases Nat.lt_or_ge k b'.toNat with hlt | hge
          · have hcmp := sorted_getD_lt _ hs' k b'.toNat hlt hblt
            rw [hat, hkname] at hcmp
            exact absurd hcmp (lt_irrefl nm)
          · have hgt : b'.toNat < k := by omega
            have hcmp := sorted_getD_lt _ hs' b'.toNat k hgt hk
            rw [hat, hkname] at hcmp
            exact absurd hcmp (lt_irrefl nm)
        rw [hkb, hat] at hkres
        exact hkres
      · exact absurd hat (by
          intro hcontra
          have := habsent b'.toNat hblt
          rw [hcontra] at this
          exact this rfl)

theorem bindname_find_spec_witness :
    (skynet_handle_namehandle
        [(⟨1, 10⟩ : HandleName Nat), ⟨3, 30⟩] 2 2 20 = none ↔
      2 ∈ [(⟨1, 10⟩ : HandleName Nat), ⟨3, 30⟩].map HandleName.name) ∧
    (2 ∉ [(⟨1, 10⟩ : HandleName Nat), ⟨3, 30⟩].map HandleName.name →
      ∃ names' cap',
        skynet_handle_namehandle
          [(⟨1, 10⟩ : HandleName Nat), ⟨3, 30⟩] 2 2 20 =
            some (names', cap') ∧
        NamesSorted names' ∧
        skynet_handle_findname names' 2 = 20) :=
  bindname_find_spec [(⟨1, 10⟩ : HandleName Nat), ⟨3, 30⟩] 2 2 20
    (by unfold NamesSorted; decide)

theorem or_mask_eq_iff (x y k : Nat) :
    x ||| (2 ^ k - 1) = y ||| (2 ^ k - 1) ↔ x / 2 ^ k = y / 2 ^ k := by
  constructor
  · intro h
    have hbits : ∀ j, x.testBit (k + j) = y.testBit (k + j) := by
      intro j
      have h2 := congrArg (fun z => z.testBit (k + j)) h
      simp only [Nat.testBit_or, Nat.testBit_two_pow_sub_one] at h2
      have hkj : ¬(k + j < k) := by omega
      simpa [hkj] using h2
    have hsh : x >>> k = y >>> k := by
      apply Nat.eq_of_testBit_eq
      intro j
      rw [Nat.testBit_shiftRight, Nat.testBit_shiftRight]
      exact hbits j
    rwa [Nat.shiftRight_eq_div_pow, Nat.shiftRight_eq_div_pow] at hsh
  · intro h
    apply Nat.eq_of_testBit_eq
    intro i
    simp only [Nat.testBit_or, Nat.testBit_two_pow_sub_one]
    by_cases hik : i < k
    · simp [hik]
    · simp only [hik, decide_eq_false_iff_not.mpr hik, Bool.or_false]
      have hx : x.testBit i = (x >>> k).testBit (i - k) := by
        rw [Nat.testBit_shiftRight]
        congr 1
        omega
      have hy : y.testBit i = (y >>> k).testBit (i - k) := by
        rw [Nat.testBit_shiftRight]
        congr 1
        omega
      rw [hx, hy, Nat.shiftRight_eq_div_pow, Nat.shiftRight_eq_div_pow, h]

theorem div_add_eq_iff (t d k : Nat) :
    (t + d) / 2 ^ k = t / 2 ^ k ↔ t % 2 ^ k + d < 2 ^ k := by
  have h0 : 0 < 2 ^ k := Nat.pos_pow_of_pos k (by norm_num)
  have key : (t + d) / 2 ^ k = t / 2 ^ k + (t % 2 ^ k + d) / 2 ^ k := by
    conv_lhs => rw [show t + d = 2 ^ k * (t / 2 ^ k) + (t % 2 ^ k + d) from by
      rw [← Nat.add_assoc, Nat.div_add_mod]]
    rw [Nat.mul_add_div h0]
  rw [key]
  constructor
  · intro h
    have hz : (t % 2 ^ k + d) / 2 ^ k = 0 := by omega
    have := Nat.mod_lt t h0
    rcases Nat.lt_or_ge (t % 2 ^ k + d) (2 ^ k) with hlt | hge
    · exact hlt
    · have h1 : 1 ≤ (t % 2 ^ k + d) / 2 ^ k := (Nat.one_le_div_iff h0).mpr hge
      omega
  · intro h
    rw [Nat.div_eq_of_lt h, Nat.add_zero]

theorem mask_cond_iff (t d k : Nat) :
    ((d + t) ||| (2 ^ k - 1) = t ||| (2 ^ k - 1)) ↔
      t % 2 ^ k + d < 2 ^ k := by
  rw [or_mask_eq_iff, Nat.add_comm d t]
  exact div_add_eq_iff t d k

theorem mem_linkNear_self (T : Timer) (i : Fin TIME_NEAR)
    (node : TimerNode) : node ∈ (linkNear T i node).near i := by
  unfold linkNear
  dsimp only
  rw [Function.update_same]
  simp

theorem mem_linkLevel_self (T : Timer) (i : Fin 4) (j : Fin TIME_LEVEL)
    (node : TimerNode) : node ∈ (linkLevel T i j node).t i j := by
  unfold linkLevel
  dsimp only
  rw [Function.update_same, Function.update_same]
  simp

theorem add_node_time (T : Timer) (n : TimerNode) :
    (add_node T n).time = T.time := by
  unfold add_node linkNear linkLevel
  dsimp only
  split <;> rfl

theorem foldl_add_time (l : List TimerNode) (T : Timer) :
    (l.foldl add_node T).time = T.time := by
  induction l generalizing T with
  | nil => rfl
  | cons n l ih => rw [List.foldl_cons, ih, add_node_time]

theorem move_list_time (T : Timer) (level : Fin 4) (idx : Fin TIME_LEVEL) :
    (move_list T level idx).time = T.time := by
  unfold move_list clearLevelSlot
  dsimp only
  rw [foldl_add_time]

theorem mem_near_linkNear (T : Timer) (i : Fin TIME_NEAR)
    (node : TimerNode) (idx : Fin TIME_NEAR) (m : TimerNode) :
    m ∈ (linkNear T i node).near idx ↔
      m ∈ T.near idx ∨ (idx = i ∧ m = node) := by
  unfold linkNear
  dsimp only
  rw [Function.update_apply]
  by_cases h : idx = i
  · subst h
    simp
  · simp [h]

theorem mem_t_linkLevel (T : Timer) (i : Fin 4) (j : Fin TIME_LEVEL)
    (node : TimerNode) (a : Fin 4) (b : Fin TIME_LEVEL) (m : TimerNode) :
    m ∈ (linkLevel T i j node).t a b ↔
      m ∈ T.t a b ∨ (a = i ∧ b = j ∧ m = node) := by
  unfold linkLevel
  dsimp only
  rw [Function.update_apply]
  by_cases ha : a = i
  · subst ha
    rw [if_pos rfl, Function.update_apply]
    by_cases hb : b = j
    · subst hb
      simp
    · simp [hb]
  · simp [ha]

theorem mem_add_node (T : Timer) (node m : TimerNode) :
    memT m (add_node T node) ↔ memT m T ∨ m = node := by
  unfold add_node
  dsimp only
  split
  · unfold memT
    constructor
    · rintro (⟨idx, hmem⟩ | ⟨i2, idx, hmem⟩)
      · rw [mem_near_linkNear] at hmem
        rcases hmem with h | ⟨_, rfl⟩
        · exact Or.inl (Or.inl ⟨idx, h⟩)
        · exact Or.inr rfl
      · exact Or.inl (Or.inr ⟨i2, idx, hmem⟩)
    · rintro ((⟨idx, hmem⟩ | ⟨i2, idx, hmem⟩) | rfl)
      · exact Or.inl ⟨idx, (mem_near_linkNear T _ node idx m).mpr
          (Or.inl hmem)⟩
      · exact Or.inr ⟨i2, idx, hmem⟩
      · exact Or.inl ⟨⟨m.expire % TIME_NEAR, Nat.mod_lt _ (by decide)⟩,
          (mem_near_linkNear T _ m _ m).mpr (Or.inr ⟨rfl, rfl⟩)⟩
  · unfold memT
    constructor
    · rintro (⟨idx, hmem⟩ | ⟨i2, idx, hmem⟩)
      · exact Or.inl (Or.inl ⟨idx, hmem⟩)
      · rw [mem_t_linkLevel] at hmem
        rcases hmem with h | ⟨_, _, rfl⟩
        · exact Or.inl (Or.inr ⟨i2, idx, h⟩)
        · exact Or.inr rfl
    · rintro ((⟨idx, hmem⟩ | ⟨i2, idx, hmem⟩) | rfl)
      · exact Or.inl ⟨idx, hmem⟩
      · refine Or.inr ⟨i2, idx, (mem_t_linkLevel _ _ _ _ _ _ _).mpr
          (Or.inl hmem)⟩
      · refine Or.inr ⟨_, _, (mem_t_linkLevel _ _ _ _ _ _ _).mpr
          (Or.inr ⟨rfl, rfl, rfl⟩)⟩

theorem add_node_inv (T : Timer) (node : TimerNode) (hI : TimerInv T)
    (hle : T.time ≤ node.expire) (hlt : node.expire < 2 ^ 32) :
    TimerInv (add_node T node) := by
  obtain ⟨ht, hnear, hlvl⟩ := hI
  have hmask8 : TIME_NEAR_MASK = 2 ^ 8 - 1 := by decide
  unfold add_node
  dsimp only
  split
  · rename_i hcond
    rw [hmask8] at hcond
    have hdiv : node.expire / 2 ^ 8 = T.time / 2 ^ 8 :=
      (or_mask_eq_iff node.expire T.time 8).mp hcond
    refine ⟨ht, ?_, ?_⟩
    · intro idx m hm
      rw [mem_near_linkNear] at hm
      rcases hm with h | ⟨rfl, rfl⟩
      · exact hnear idx m h
      · exact ⟨rfl, hdiv, hle⟩
    · intro i idx m hm
      exact hlvl i idx m hm
  · rename_i hcond
    rw [hmask8] at hcond
    have hne8 : node.expire / 2 ^ 8 ≠ T.time / 2 ^ 8 :=
      fun h => hcond ((or_mask_eq_iff node.expire T.time 8).mpr h)
    have hgt8 : T.time / 2 ^ 8 < node.expire / 2 ^ 8 :=
      lt_of_le_of_ne (Nat.div_le_div_right hle) (Ne.symm hne8)
    refine ⟨ht, ?_, ?_⟩
    · intro idx m hm
      exact hnear idx m hm
    · intro i2 idx m hm
      rw [mem_t_linkLevel] at hm
      rcases hm with h | ⟨rfl, rfl, rfl⟩
      · exact hlvl i2 idx m h
      · by_cases h14 : m.expire ||| (2 ^ 14 - 1) =
            T.time ||| (2 ^ 14 - 1)
        · simp only [if_pos h14]
          have hdiv14 : m.expire / 2 ^ 14 = T.time / 2 ^ 14 :=
            (or_mask_eq_iff m.expire T.time 14).mp h14
          refine ⟨?_, ?_, ?_, hlt⟩
          · norm_num [Nat.shiftRight_eq_div_pow, TIME_NEAR_SHIFT,
              TIME_LEVEL_SHIFT]
          · norm_num
            exact hgt8
          · intro _
            norm_num
            exact hdiv14
        · have hne14 : m.expire / 2 ^ 14 ≠ T.time / 2 ^ 14 :=
            fun h => h14 ((or_mask_eq_iff m.expire T.time 14).mpr h)
          have hgt14 : T.time / 2 ^ 14 < m.expire / 2 ^ 14 :=
            lt_of_le_of_ne (Nat.div_le_div_right hle) (Ne.symm hne14)
          by_cases h20 : m.expire ||| (2 ^ 20 - 1) =
              T.time ||| (2 ^ 20 - 1)
          · simp only [if_neg h14, if_pos h20]
            have hdiv20 : m.expire / 2 ^ 20 = T.time / 2 ^ 20 :=
              (or_mask_eq_iff m.expire T.time 20).mp h20
            refine ⟨?_, ?_, ?_, hlt⟩
            · norm_num [Nat.shiftRight_eq_div_pow, TIME_NEAR_SHIFT,
                TIME_LEVEL_SHIFT]
            · norm_num
              exact hgt14
            · intro _
              norm_num
              exact hdiv20
          · have hne20 : m.expire / 2 ^ 20 ≠ T.time / 2 ^ 20 :=
              fun h => h20 ((or_mask_eq_iff m.expire T.time 20).mpr h)
            have hgt20 : T.time / 2 ^ 20 < m.expire / 2 ^ 20 :=
              lt_of_le_of_ne (Nat.div_le_div_right hle) (Ne.symm hne20)
            by_cases h26 : m.expire ||| (2 ^ 26 - 1) =
                T.time ||| (2 ^ 26 - 1)
            · simp only [if_neg h14, if_neg h20, if_pos h26]
              have hdiv26 : m.expire / 2 ^ 26 = T.time / 2 ^ 26 :=
                (or_mask_eq_iff m.expire T.time 26).mp h26
              refine ⟨?_, ?_, ?_, hlt⟩
              · norm_num [Nat.shiftRight_eq_div_pow, TIME_NEAR_SHIFT,
                  TIME_LEVEL_SHIFT]
              · norm_num
                exact hgt20
              · intro _
                norm_num
                exact hdiv26
            · have hne26 : m.expire / 2 ^ 26 ≠ T.time / 2 ^ 26 :=
                fun h => h26 ((or_mask_eq_iff m.expire T.time 26).mpr h)
              have hgt26 : T.time / 2 ^ 26 < m.expire / 2 ^ 26 :=
                lt_of_le_of_ne (Nat.div_le_div_right hle) (Ne.symm hne26)
              simp only [if_neg h14, if_neg h20, if_neg h26]
              refine ⟨?_, ?_, ?_, hlt⟩
              · norm_num [Nat.shiftRight_eq_div_pow, TIME_NEAR_SHIFT,
                  TIME_LEVEL_SHIFT]
              · norm_num
                exact hgt26
              · intro hcontra
                norm_num at hcontra

theorem foldl_add_inv (l : List TimerNode) (T : Timer) (hI : TimerInv T)
    (hall : ∀ n ∈ l, T.time ≤ n.expire ∧ n.expire < 2 ^ 32) :
    TimerInv (l.foldl add_node T) := by
  induction l generalizing T with
  | nil => exact hI
  | cons n l ih =>
    rw [List.foldl_cons]
    apply ih
    · exact add_node_inv T n hI (hall n (by simp)).1 (hall n (by simp)).2
    · intro m hm
      rw [add_node_time]
      exact hall m (List.mem_cons_of_mem _ hm)

theorem mem_foldl_add (l : List TimerNode) (T : Timer) (m : TimerNode) :
    memT m (l.foldl add_node T) ↔ memT m T ∨ m ∈ l := by
  induction l generalizing T with
  | nil => simp
  | cons n l ih =>
    rw [List.foldl_cons, ih, mem_add_node]
    simp [List.mem_cons, or_assoc]

theorem mem_t_clearLevelSlot (T : Timer) (level : Fin 4)
    (idx : Fin TIME_LEVEL) (a : Fin 4) (b : Fin TIME_LEVEL)
    (m : TimerNode) :
    m ∈ (clearLevelSlot T level idx).t a b ↔
      ¬(a = level ∧ b = idx) ∧ m ∈ T.t a b := by
  unfold clearLevelSlot
  dsimp only
  rw [Function.update_apply]
  by_cases ha : a = level
  · subst ha
    rw [if_pos rfl, Function.update_apply]
    by_cases hb : b = idx
    · subst hb
      simp
    · simp [hb]
  · simp [ha]

theorem move_list_inv (T : Timer) (level : Fin 4) (idx : Fin TIME_LEVEL)
    (hI : TimerInv (clearLevelSlot T level idx))
    (hslot : ∀ n ∈ T.t level idx, T.time ≤ n.expire ∧ n.expire < 2 ^ 32) :
    TimerInv (move_list T level idx) := by
  unfold move_list
  dsimp only
  exact foldl_add_inv _ _ hI (fun n hn => hslot n hn)

theorem mem_move_list (T : Timer) (level : Fin 4) (idx : Fin TIME_LEVEL)
    (m : TimerNode) (h : memT m T) : memT m (move_list T level idx) := by
  unfold move_list
  dsimp only
  rw [mem_foldl_add]
  rcases h with ⟨i, hm⟩ | ⟨a, b, hm⟩
  · exact Or.inl (Or.inl ⟨i, hm⟩)
  · by_cases hab : a = level ∧ b = idx
    · obtain ⟨rfl, rfl⟩ := hab
      exact Or.inr hm
    · exact Or.inl (Or.inr ⟨a, b,
        (mem_t_clearLevelSlot T level idx a b m).mpr ⟨hab, hm⟩⟩)

theorem timer_shift_spec (T : Timer) (hI : TimerInv T)
    (hlt : T.time + 1 < 2 ^ 32)
    (hempty : T.near ⟨T.time % TIME_NEAR, Nat.mod_lt _ (by decide)⟩ = []) :
    TimerInv (timer_shift T) ∧ (timer_shift T).time = T.time + 1 ∧
    (∀ m, memT m T → memT m (timer_shift T)) := by
  obtain ⟨ht, hnear, hlvl⟩ := hI
  have hct : (T.time + 1) % 2 ^ 32 = T.time + 1 := Nat.mod_eq_of_lt hlt
  have hne0 : ¬(T.time + 1 = 0) := by omega
  by_cases c1 : (T.time + 1) % TIME_NEAR ≠ 0
  · -- no block boundary crossed: only the tick advances
    have heq : timer_shift T = { T with time := T.time + 1 } := by
      unfold timer_shift
      dsimp only
      simp only [hct]
      rw [if_neg hne0, if_pos c1]
    have c1' : (T.time + 1) % 2 ^ 8 ≠ 0 := c1
    rw [heq]
    refine ⟨⟨(by omega : T.time + 1 < 2 ^ 32), ?_, ?_⟩, rfl,
      fun m hm => hm⟩
    · intro idx m hm
      obtain ⟨ha, hb, hc⟩ := hnear idx m hm
      have hb' : m.expire / 2 ^ 8 = T.time / 2 ^ 8 := hb
      refine ⟨ha, ?_, ?_⟩
      · show m.expire / 2 ^ 8 = (T.time + 1) / 2 ^ 8
        omega
      · show T.time + 1 ≤ m.expire
        rcases Nat.eq_or_lt_of_le hc with heq2 | h2
        · exfalso
          have hidx : idx = ⟨T.time % TIME_NEAR, Nat.mod_lt _ (by decide)⟩ :=
            Fin.ext (by rw [← ha, ← heq2])
          rw [hidx, hempty] at hm
          exact (List.not_mem_nil m) hm
        · omega
    · intro i idx m hm
      obtain ⟨ha, hb, hbl, hd⟩ := hlvl i idx m hm
      refine ⟨ha, ?_, ?_, hd⟩
      · fin_cases i
        · have hb' : T.time / 2 ^ 8 < m.expire / 2 ^ 8 := hb
          show (T.time + 1) / 2 ^ 8 < m.expire / 2 ^ 8
          omega
        · have hb' : T.time / 2 ^ 14 < m.expire / 2 ^ 14 := hb
          show (T.time + 1) / 2 ^ 14 < m.expire / 2 ^ 14
          omega
        · have hb' : T.time / 2 ^ 20 < m.expire / 2 ^ 20 := hb
          show (T.time + 1) / 2 ^ 20 < m.expire / 2 ^ 20
          omega
        · have hb' : T.time / 2 ^ 26 < m.expire / 2 ^ 26 := hb
          show (T.time + 1) / 2 ^ 26 < m.expire / 2 ^ 26
          omega
      · intro h3
        fin_cases i
        · have h : m.expire / 2 ^ 14 = T.time / 2 ^ 14 := hbl (by decide)
          show m.expire / 2 ^ 14 = (T.time + 1) / 2 ^ 14
          omega
        · have h : m.expire / 2 ^ 20 = T.time / 2 ^ 20 := hbl (by decide)
          show m.expire / 2 ^ 20 = (T.time + 1) / 2 ^ 20
          omega
        · have h : m.expire / 2 ^ 26 = T.time / 2 ^ 26 := hbl (by decide)
          show m.expire / 2 ^ 26 = (T.time + 1) / 2 ^ 26
          omega
        · exact absurd h3 (by decide)
  · -- (T.time+1) % 256 = 0: the whole near wheel is already empty
    rw [not_not] at c1
    have c1' : (T.time + 1) % 2 ^ 8 = 0 := c1
    have hnearempty : ∀ (idx : Fin TIME_NEAR) (m : TimerNode),
        m ∈ T.near idx → False := by
      intro idx m hm
      obtain ⟨ha, hb, hc⟩ := hnear idx m hm
      have hb' : m.expire / 2 ^ 8 = T.time / 2 ^ 8 := hb
      have he : m.expire = T.time := by omega
      have hidx : idx = ⟨T.time % TIME_NEAR, Nat.mod_lt _ (by decide)⟩ :=
        Fin.ext (by rw [← ha, he])
      rw [hidx, hempty] at hm
      exact (List.not_mem_nil m) hm
    have hnearclear : ∀ (S : Timer), S.near = T.near → nearInv S := by
      intro S hS idx m hm
      rw [hS] at hm
      exact (hnearempty idx m hm).elim
    by_cases c2 : ((T.time + 1) >>> TIME_NEAR_SHIFT) % TIME_LEVEL ≠ 0
    · -- migrate level-0 slot (T.time+1) >> 8 mod 64
      have heq : timer_shift T = move_list { T with time := T.time + 1 } 0
          ⟨((T.time + 1) >>> TIME_NEAR_SHIFT) % TIME_LEVEL,
            Nat.mod_lt _ (by decide)⟩ := by
        unfold timer_shift
        dsimp only
        simp only [hct]
        rw [if_neg hne0, if_neg (not_not.mpr c1), if_pos c2]
      have c2' : ((T.time + 1) / 2 ^ 8) % 2 ^ 6 ≠ 0 := by
        have h := c2
        rw [Nat.shiftRight_eq_div_pow] at h
        exact h
      rw [heq]
      have hmig : ∀ n ∈ T.t 0 ⟨((T.time + 1) >>> TIME_NEAR_SHIFT) %
            TIME_LEVEL, Nat.mod_lt _ (by decide)⟩,
          T.time + 1 ≤ n.expire ∧ n.expire < 2 ^ 32 := by
        intro n hn
        obtain ⟨ha, hb, hbl, hd⟩ := hlvl 0 _ n hn
        have hb' : T.time / 2 ^ 8 < n.expire / 2 ^ 8 := hb
        exact ⟨by omega, hd⟩
      refine ⟨move_list_inv _ _ _
        ⟨(by omega : T.time + 1 < 2 ^ 32), hnearclear _ rfl, ?_⟩ hmig,
        by rw [move_list_time], fun m hm => mem_move_list _ _ _ m hm⟩
      intro a b m hm
      rw [mem_t_clearLevelSlot] at hm
      obtain ⟨hab, hm⟩ := hm
      obtain ⟨ha, hb, hbl, hd⟩ := hlvl a b m hm
      fin_cases a
      · -- level 0, not the migrated slot
        have hbne : b.val ≠ ((T.time + 1) >>> TIME_NEAR_SHIFT) %
            TIME_LEVEL := by
          intro hbv
          exact hab ⟨rfl, Fin.ext hbv⟩
        rw [Nat.shiftRight_eq_div_pow] at hbne
        have hbne' : b.val ≠ ((T.time + 1) / 2 ^ 8) % 2 ^ 6 := hbne
        have ha' : (m.expire / 2 ^ 8) % 2 ^ 6 = b.val := ha
        have hb' : T.time / 2 ^ 8 < m.expire / 2 ^ 8 := hb
        have hblk : m.expire / 2 ^ 14 = T.time / 2 ^ 14 := hbl (by decide)
        refine ⟨ha, ?_, fun h3 => ?_, hd⟩
        · show (T.time + 1) / 2 ^ 8 < m.expire / 2 ^ 8
          omega
        · show m.expire / 2 ^ 14 = (T.time + 1) / 2 ^ 14
          omega
      · have hb' : T.time / 2 ^ 14 < m.expire / 2 ^ 14 := hb
        have hblk : m.expire / 2 ^ 20 = T.time / 2 ^ 20 := hbl (by decide)
        refine ⟨ha, ?_, fun h3 => ?_, hd⟩
        · show (T.time + 1) / 2 ^ 14 < m.expire / 2 ^ 14
          omega
        · show m.expire / 2 ^ 20 = (T.time + 1) / 2 ^ 20
          omega
      · have hb' : T.time / 2 ^ 20 < m.expire / 2 ^ 20 := hb
        have hblk : m.expire / 2 ^ 26 = T.time / 2 ^ 26 := hbl (by decide)
        refine ⟨ha, ?_, fun h3 => ?_, hd⟩
        · show (T.time + 1) / 2 ^ 20 < m.expire / 2 ^ 20
          omega
        · show m.expire / 2 ^ 26 = (T.time + 1) / 2 ^ 26
          omega
      · have hb' : T.time / 2 ^ 26 < m.expire / 2 ^ 26 := hb
        refine ⟨ha, ?_, fun h3 => absurd h3 (by decide), hd⟩
        show (T.time + 1) / 2 ^ 26 < m.expire / 2 ^ 26
        omega
    · have c2' : ((T.time + 1) / 2 ^ 8) % 2 ^ 6 = 0 := by
        rw [not_not, Nat.shiftRight_eq_div_pow] at c2
        exact c2
      by_cases c3 : ((T.time + 1) >>> 14) % TIME_LEVEL ≠ 0
      · -- migrate level-1 slot
        have heq : timer_shift T = move_list { T with time := T.time + 1 } 1
            ⟨((T.time + 1) >>> 14) % TIME_LEVEL,
              Nat.mod_lt _ (by decide)⟩ := by
          unfold timer_shift
          dsimp only
          simp only [hct]
          rw [if_neg hne0, if_neg (not_not.mpr c1), if_neg (not_not.mpr (by
            rw [Nat.shiftRight_eq_div_pow]
            exact c2')), if_pos c3]
        have c3' : ((T.time + 1) / 2 ^ 14) % 2 ^ 6 ≠ 0 := by
          have h := c3
          rw [Nat.shiftRight_eq_div_pow] at h
          exact h
        rw [heq]
        have hmig : ∀ n ∈ T.t 1 ⟨((T.time + 1) >>> 14) % TIME_LEVEL,
              Nat.mod_lt _ (by decide)⟩,
            T.time + 1 ≤ n.expire ∧ n.expire < 2 ^ 32 := by
          intro n hn
          obtain ⟨ha, hb, hbl, hd⟩ := hlvl 1 _ n hn
          have hb' : T.time / 2 ^ 14 < n.expire / 2 ^ 14 := hb
          exact ⟨by omega, hd⟩
        refine ⟨move_list_inv _ _ _
          ⟨(by omega : T.time + 1 < 2 ^ 32), hnearclear _ rfl, ?_⟩ hmig,
          by rw [move_list_time], fun m hm => mem_move_list _ _ _ m hm⟩
        intro a b m hm
        rw [mem_t_clearLevelSlot] at hm
        obtain ⟨hab, hm⟩ := hm
        obtain ⟨ha, hb, hbl, hd⟩ := hlvl a b m hm
        fin_cases a
        · -- level 0 is empty at a 2^14 boundary
          exfalso
          have hb' : T.time / 2 ^ 8 < m.expire / 2 ^ 8 := hb
          have hblk : m.expire / 2 ^ 14 = T.time / 2 ^ 14 := hbl (by decide)
          omega
        · have hbne : b.val ≠ ((T.time + 1) >>> 14) % TIME_LEVEL := by
            intro hbv
            exact hab ⟨rfl, Fin.ext hbv⟩
          rw [Nat.shiftRight_eq_div_pow] at hbne
          have hbne' : b.val ≠ ((T.time + 1) / 2 ^ 14) % 2 ^ 6 := hbne
          have ha' : (m.expire / 2 ^ 14) % 2 ^ 6 = b.val := ha
          have hb' : T.time / 2 ^ 14 < m.expire / 2 ^ 14 := hb
          have hblk : m.expire / 2 ^ 20 = T.time / 2 ^ 20 := hbl (by decide)
          refine ⟨ha, ?_, fun h3 => ?_, hd⟩
          · show (T.time + 1) / 2 ^ 14 < m.expire / 2 ^ 14
            omega
          · show m.expire / 2 ^ 20 = (T.time + 1) / 2 ^ 20
            omega
        · have hb' : T.time / 2 ^ 20 < m.expire / 2 ^ 20 := hb
          have hblk : m.expire / 2 ^ 26 = T.time / 2 ^ 26 := hbl (by decide)
          refine ⟨ha, ?_, fun h3 => ?_, hd⟩
          · show (T.time + 1) / 2 ^ 20 < m.expire / 2 ^ 20
            omega
          · show m.expire / 2 ^ 26 = (T.time + 1) / 2 ^ 26
            omega
        · have hb' : T.time / 2 ^ 26 < m.expire / 2 ^ 26 := hb
          refine ⟨ha, ?_, fun h3 => absurd h3 (by decide), hd⟩
          show (T.time + 1) / 2 ^ 26 < m.expire / 2 ^ 26
          omega
      · have c3' : ((T.time + 1) / 2 ^ 14) % 2 ^ 6 = 0 := by
          rw [not_not, Nat.shiftRight_eq_div_pow] at c3
          exact c3
        by_cases c4 : ((T.time + 1) >>> 20) % TIME_LEVEL ≠ 0
        · -- migrate level-2 slot
          have heq : timer_shift T =
              move_list { T with time := T.time + 1 } 2
                ⟨((T.time + 1) >>> 20) % TIME_LEVEL,
                  Nat.mod_lt _ (by decide)⟩ := by
            unfold timer_shift
            dsimp only
            simp only [hct]
            rw [if_neg hne0, if_neg (not_not.mpr c1), if_neg (not_not.mpr (by
              rw [Nat.shiftRight_eq_div_pow]
              exact c2')), if_neg (not_not.mpr (by
              rw [Nat.shiftRight_eq_div_pow]
              exact c3')), if_pos c4]
          have c4' : ((T.time + 1) / 2 ^ 20) % 2 ^ 6 ≠ 0 := by
            have h := c4
            rw [Nat.shiftRight_eq_div_pow] at h
            exact h
          rw [heq]
          have hmig : ∀ n ∈ T.t 2 ⟨((T.time + 1) >>> 20) % TIME_LEVEL,
                Nat.mod_lt _ (by decide)⟩,
              T.time + 1 ≤ n.expire ∧ n.expire < 2 ^ 32 := by
            intro n hn
            obtain ⟨ha, hb, hbl, hd⟩ := hlvl 2 _ n hn
            have hb' : T.time / 2 ^ 20 < n.expire / 2 ^ 20 := hb
            exact ⟨by omega, hd⟩
          refine ⟨move_list_inv _ _ _
            ⟨(by omega : T.time + 1 < 2 ^ 32), hnearclear _ rfl, ?_⟩ hmig,
            by rw [move_list_time], fun m hm => mem_move_list _ _ _ m hm⟩
          intro a b m hm
          rw [mem_t_clearLevelSlot] at hm
          obtain ⟨hab, hm⟩ := hm
          obtain ⟨ha, hb, hbl, hd⟩ := hlvl a b m hm
          fin_cases a
          · exfalso
            have hb' : T.time / 2 ^ 8 < m.expire / 2 ^ 8 := hb
            have hblk : m.expire / 2 ^ 14 = T.time / 2 ^ 14 :=
              hbl (by decide)
            omega
          · exfalso
            have hb' : T.time / 2 ^ 14 < m.expire / 2 ^ 14 := hb
            have hblk : m.expire / 2 ^ 20 = T.time / 2 ^ 20 :=
              hbl (by decide)
            omega
          · have hbne : b.val ≠ ((T.time + 1) >>> 20) % TIME_LEVEL := by
              intro hbv
              exact hab ⟨rfl, Fin.ext hbv⟩
            rw [Nat.shiftRight_eq_div_pow] at hbne
            have hbne' : b.val ≠ ((T.time + 1) / 2 ^ 20) % 2 ^ 6 := hbne
            have ha' : (m.expire / 2 ^ 20) % 2 ^ 6 = b.val := ha
            have hb' : T.time / 2 ^ 20 < m.expire / 2 ^ 20 := hb
            have hblk : m.expire / 2 ^ 26 = T.time / 2 ^ 26 :=
              hbl (by decide)
            refine ⟨ha, ?_, fun h3 => ?_, hd⟩
            · show (T.time + 1) / 2 ^ 20 < m.expire / 2 ^ 20
              omega
            · show m.expire / 2 ^ 26 = (T.time + 1) / 2 ^ 26
              omega
          · have hb' : T.time / 2 ^ 26 < m.expire / 2 ^ 26 := hb
            refine ⟨ha, ?_, fun h3 => absurd h3 (by decide), hd⟩
            show (T.time + 1) / 2 ^ 26 < m.expire / 2 ^ 26
            omega
        · have c4' : ((T.time + 1) / 2 ^ 20) % 2 ^ 6 = 0 := by
            rw [not_not, Nat.shiftRight_eq_div_pow] at c4
            exact c4
          by_cases c5 : ((T.time + 1) >>> 26) % TIME_LEVEL ≠ 0
          · -- migrate level-3 slot
            have heq : timer_shift T =
                move_list { T with time := T.time + 1 } 3
                  ⟨((T.time + 1) >>> 26) % TIME_LEVEL,
                    Nat.mod_lt _ (by decide)⟩ := by
              unfold timer_shift
              dsimp only
              simp only [hct]
              rw [if_neg hne0, if_neg (not_not.mpr c1),
                if_neg (not_not.mpr (by
                  rw [Nat.shiftRight_eq_div_pow]
                  exact c2')), if_neg (not_not.mpr (by
                  rw [Nat.shiftRight_eq_div_pow]
                  exact c3')), if_neg (not_not.mpr (by
                  rw [Nat.shiftRight_eq_div_pow]
                  exact c4')), if_pos c5]
            have c5' : ((T.time + 1) / 2 ^ 26) % 2 ^ 6 ≠ 0 := by
              have h := c5
              rw [Nat.shiftRight_eq_div_pow] at h
              exact h
            rw [heq]
            have hmig : ∀ n ∈ T.t 3 ⟨((T.time + 1) >>> 26) % TIME_LEVEL,
                  Nat.mod_lt _ (by decide)⟩,
                T.time + 1 ≤ n.expire ∧ n.expire < 2 ^ 32 := by
              intro n hn
              obtain ⟨ha, hb, hbl, hd⟩ := hlvl 3 _ n hn
              have hb' : T.time / 2 ^ 26 < n.expire / 2 ^ 26 := hb
              exact ⟨by omega, hd⟩
            refine ⟨move_list_inv _ _ _
              ⟨(by omega : T.time + 1 < 2 ^ 32), hnearclear _ rfl, ?_⟩ hmig,
              by rw [move_list_time], fun m hm => mem_move_list _ _ _ m hm⟩
            intro a b m hm
            rw [mem_t_clearLevelSlot] at hm
            obtain ⟨hab, hm⟩ := hm
            obtain ⟨ha, hb, hbl, hd⟩ := hlvl a b m hm
            fin_cases a
            · exfalso
              have hb' : T.time / 2 ^ 8 < m.expire / 2 ^ 8 := hb
              have hblk : m.expire / 2 ^ 14 = T.time / 2 ^ 14 :=
                hbl (by decide)
              omega
            · exfalso
              have hb' : T.time / 2 ^ 14 < m.expire / 2 ^ 14 := hb
              have hblk : m.expire / 2 ^ 20 = T.time / 2 ^ 20 :=
                hbl (by decide)
              omega
            · exfalso
              have hb' : T.time / 2 ^ 20 < m.expire / 2 ^ 20 := hb
              have hblk : m.expire / 2 ^ 26 = T.time / 2 ^ 26 :=
                hbl (by decide)
              omega
            · have hbne : b.val ≠ ((T.time + 1) >>> 26) % TIME_LEVEL := by
                intro hbv
                exact hab ⟨rfl, Fin.ext hbv⟩
              rw [Nat.shiftRight_eq_div_pow] at hbne
              have hbne' : b.val ≠ ((T.time + 1) / 2 ^ 26) % 2 ^ 6 := hbne
              have ha' : (m.expire / 2 ^ 26) % 2 ^ 6 = b.val := ha
              have hb' : T.time / 2 ^ 26 < m.expire / 2 ^ 26 := hb
              refine ⟨ha, ?_, fun h3 => absurd h3 (by decide), hd⟩
              show (T.time + 1) / 2 ^ 26 < m.expire / 2 ^ 26
              omega
          · -- impossible: would need T.time + 1 ≡ 0 mod 2^32
            exfalso
            have c5' : ((T.time + 1) / 2 ^ 26) % 2 ^ 6 = 0 := by
              rw [not_not, Nat.shiftRight_eq_div_pow] at c5
              exact c5
            omega

theorem timer_execute_fired_expire (T : Timer) (hI : TimerInv T) :
    ∀ n ∈ (timer_execute T).1, n.expire = T.time := by
  intro n hn
  obtain ⟨ht, hnear, hlvl⟩ := hI
  have hn' : n ∈ T.near ⟨T.time % TIME_NEAR, Nat.mod_lt _ (by decide)⟩ := hn
  obtain ⟨ha, hb, hc⟩ := hnear _ n hn'
  have ha' : n.expire % 2 ^ 8 = T.time % 2 ^ 8 := ha
  have hb' : n.expire / 2 ^ 8 = T.time / 2 ^ 8 := hb
  omega

theorem timer_execute_fires_now (T : Timer) (hI : TimerInv T)
    (n : TimerNode) (hmem : memT n T) (he : n.expire = T.time) :
    n ∈ (timer_execute T).1 := by
  obtain ⟨ht, hnear, hlvl⟩ := hI
  rcases hmem with ⟨idx, hm⟩ | ⟨i, idx, hm⟩
  · obtain ⟨ha, hb, hc⟩ := hnear idx n hm
    have hidx : idx = ⟨T.time % TIME_NEAR, Nat.mod_lt _ (by decide)⟩ :=
      Fin.ext (by rw [← ha, he])
    show n ∈ T.near ⟨T.time % TIME_NEAR, Nat.mod_lt _ (by decide)⟩
    rw [← hidx]
    exact hm
  · obtain ⟨ha, hb, hbl, hd⟩ := hlvl i idx n hm
    rw [he] at hb
    exact absurd hb (lt_irrefl _)

theorem timer_execute_state (T : Timer) (hI : TimerInv T) :
    TimerInv (timer_execute T).2 ∧ (timer_execute T).2.time = T.time ∧
    (timer_execute T).2.near
      ⟨T.time % TIME_NEAR, Nat.mod_lt _ (by decide)⟩ = [] := by
  obtain ⟨ht, hnear, hlvl⟩ := hI
  refine ⟨⟨ht, ?_, ?_⟩, rfl, ?_⟩
  · intro idx m hm
    have hm' : m ∈ Function.update T.near
        ⟨T.time % TIME_NEAR, Nat.mod_lt _ (by decide)⟩ [] idx := hm
    rw [Function.update_apply] at hm'
    by_cases hx : idx = ⟨T.time % TIME_NEAR, Nat.mod_lt _ (by decide)⟩
    · rw [if_pos hx] at hm'
      exact absurd hm' (List.not_mem_nil m)
    · rw [if_neg hx] at hm'
      exact hnear idx m hm'
  · intro i idx m hm
    exact hlvl i idx m hm
  · have h : (timer_execute T).2.near = Function.update T.near
        ⟨T.time % TIME_NEAR, Nat.mod_lt _ (by decide)⟩ [] := rfl
    rw [h, Function.update_same]

theorem timer_execute_mem_split (T : Timer) (m : TimerNode)
    (hmem : memT m T) :
    m ∈ (timer_execute T).1 ∨ memT m (timer_execute T).2 := by
  rcases hmem with ⟨idx, hm⟩ | ⟨i, idx, hm⟩
  · by_cases hx : idx = ⟨T.time % TIME_NEAR, Nat.mod_lt _ (by decide)⟩
    · rw [hx] at hm
      exact Or.inl hm
    · refine Or.inr (Or.inl ⟨idx, ?_⟩)
      show m ∈ Function.update T.near
        ⟨T.time % TIME_NEAR, Nat.mod_lt _ (by decide)⟩ [] idx
      rw [Function.update_apply, if_neg hx]
      exact hm
  · exact Or.inr (Or.inr ⟨i, idx, hm⟩)

/-- One `skynet_updatetime` tick: the fired nodes are exactly those whose
expiry is the old or the new tick, the tick advances by one, and every
other node survives with the invariant intact. -/
theorem timer_update_spec (T : Timer) (hI : TimerInv T)
    (hlt : T.time + 1 < 2 ^ 32) :
    TimerInv (timer_update T).2 ∧ (timer_update T).2.time = T.time + 1 ∧
    (∀ n ∈ (timer_update T).1,
      n.expire = T.time ∨ n.expire = T.time + 1) ∧
    (∀ n, memT n T → (n.expire = T.time ∨ n.expire = T.time + 1) →
      n ∈ (timer_update T).1) ∧
    (∀ n, memT n T → n.expire ≠ T.time → n.expire ≠ T.time + 1 →
      memT n (timer_update T).2) := by
  obtain ⟨hI2, _, hemp2⟩ := timer_execute_state T hI
  obtain ⟨hI3, htime3, hsurv3⟩ :=
    timer_shift_spec (timer_execute T).2 hI2 hlt hemp2
  have htime3' : (timer_shift (timer_execute T).2).time = T.time + 1 :=
    htime3
  obtain ⟨hI4, _, _⟩ := timer_execute_state _ hI3
  refine ⟨hI4, htime3', ?_, ?_, ?_⟩
  · intro n hn
    have hn' : n ∈ (timer_execute T).1 ++
        (timer_execute (timer_shift (timer_execute T).2)).1 := hn
    rcases List.mem_append.mp hn' with h | h
    · exact Or.inl (timer_execute_fired_expire T hI n h)
    · have h2 := timer_execute_fired_expire _ hI3 n h
      rw [htime3'] at h2
      exact Or.inr h2
  · intro n hmem hor
    show n ∈ (timer_execute T).1 ++
      (timer_execute (timer_shift (timer_execute T).2)).1
    rcases hor with he | he
    · exact List.mem_append.mpr
        (Or.inl (timer_execute_fires_now T hI n hmem he))
    · rcases timer_execute_mem_split T n hmem with hf | hx
      · exact List.mem_append.mpr (Or.inl hf)
      · refine List.mem_append.mpr (Or.inr ?_)
        refine timer_execute_fires_now _ hI3 n (hsurv3 n hx) ?_
        rw [htime3']
        exact he
  · intro n hmem hne1 hne2
    rcases timer_execute_mem_split T n hmem with hf | hx
    · exact absurd (timer_execute_fired_expire T hI n hf) hne1
    · rcases timer_execute_mem_split _ n (hsurv3 n hx) with hf2 | hx2
      · exfalso
        have h2 := timer_execute_fired_expire _ hI3 n hf2
        rw [htime3'] at h2
        exact hne2 h2
      · exact hx2

/-- Iterated ticks: the invariant persists, the tick counts up, and a node
whose expiry is still in the future survives in the wheel. -/
theorem timer_updates_spec (T : Timer) (hI : TimerInv T) (k : Nat) :
    T.time + k < 2 ^ 32 →
    TimerInv (timer_updates T k) ∧
    (timer_updates T k).time = T.time + k ∧
    (∀ n, memT n T → T.time + k < n.expire →
      memT n (timer_updates T k)) := by
  induction k with
  | zero => exact fun _ => ⟨hI, rfl, fun n hn _ => hn⟩
  | succ k ih =>
    intro hk
    obtain ⟨hIk, htimek, hsurvk⟩ := ih (by omega)
    have hlt1 : (timer_updates T k).time + 1 < 2 ^ 32 := by
      rw [htimek]
      omega
    obtain ⟨hIu, htimeu, _, _, hsurvu⟩ := timer_update_spec _ hIk hlt1
    refine ⟨hIu, ?_, ?_⟩
    · have h : (timer_updates T (k + 1)).time =
          (timer_updates T k).time + 1 := htimeu
      rw [h, htimek]
      omega
    · intro n hn hgt
      have h1 : memT n (timer_updates T k) := hsurvk n hn (by omega)
      exact hsurvu n h1 (by rw [htimek]; omega) (by rw [htimek]; omega)

theorem timer_create_inv : TimerInv timer_create_timer := by
  refine ⟨by decide, ?_, ?_⟩
  · intro idx n hn
    exact absurd hn (List.not_mem_nil n)
  · intro i idx n hn
    exact absurd hn (List.not_mem_nil n)

/-- C3: a timeout registered with relative delay `d > 0` at base tick `T`
never fires early: its node is absent from every dispatch whose resulting
tick is below `T + d`, it is dispatched exactly by the update that brings
the tick to `T + d`, and that dispatch pushes the `PTYPE_RESPONSE` message
carrying the session to the owning handle. -/
theorem timer_never_early (T : Timer) (handle : Nat) (session : Int)
    (d : Nat) (hI : TimerInv T) (hd : 0 < d) (hlt : T.time + d < 2 ^ 32) :
    (∀ j, j + 1 < d →
      (⟨T.time + d, handle, session⟩ : TimerNode) ∉
        (timer_update (timer_updates (timer_add T handle session d)
          j)).1) ∧
    (⟨T.time + d, handle, session⟩ : TimerNode) ∈
      (timer_update (timer_updates (timer_add T handle session d)
        (d - 1))).1 ∧
    (timer_update (timer_updates (timer_add T handle session d)
      (d - 1))).2.time = T.time + d ∧
    (handle, (⟨0, session, none,
        PTYPE_RESPONSE <<< MESSAGE_TYPE_SHIFT⟩ : SkynetMessage)) ∈
      dispatch_list (timer_update (timer_updates (timer_add T handle
        session d) (d - 1))).1 := by
  have hnode : timer_add T handle session d =
      add_node T ⟨T.time + d, handle, session⟩ := by
    unfold timer_add
    dsimp only
    rw [show (d + T.time) % 2 ^ 32 = T.time + d from by omega]
  have hIA : TimerInv (timer_add T handle session d) := by
    rw [hnode]
    exact add_node_inv T _ hI
      (show T.time ≤ T.time + d from by omega)
      (show T.time + d < 2 ^ 32 from hlt)
  have htimea : (timer_add T handle session d).time = T.time := by
    rw [hnode, add_node_time]
  have hmema : memT ⟨T.time + d, handle, session⟩
      (timer_add T handle session d) := by
    rw [hnode]
    exact (mem_add_node T _ _).mpr (Or.inr rfl)
  obtain ⟨hId1, htimed1, hsurvd1⟩ :=
    timer_updates_spec (timer_add T handle session d) hIA (d - 1)
      (by rw [htimea]; omega)
  have hmemk := hsurvd1 _ hmema
    (by rw [htimea]; show T.time + (d - 1) < T.time + d; omega)
  have hlt2 : (timer_updates (timer_add T handle session d)
      (d - 1)).time + 1 < 2 ^ 32 := by
    rw [htimed1, htimea]
    omega
  obtain ⟨hIu, htimeu, _, hcompu, _⟩ := timer_update_spec _ hId1 hlt2
  have hfired := hcompu _ hmemk (Or.inr (by
    rw [htimed1, htimea]
    show T.time + d = T.time + (d - 1) + 1
    omega))
  have htfinal : (timer_update (timer_updates (timer_add T handle
      session d) (d - 1))).2.time = T.time + d := by
    rw [htimeu, htimed1, htimea]
    omega
  have hmsg : (handle, (⟨0, session, none,
      PTYPE_RESPONSE <<< MESSAGE_TYPE_SHIFT⟩ : SkynetMessage)) ∈
      dispatch_list (timer_update (timer_updates (timer_add T handle
        session d) (d - 1))).1 := by
    unfold dispatch_list
    exact List.mem_map_of_mem _ hfired
  refine ⟨?_, hfired, htfinal, hmsg⟩
  intro j hj hmem
  obtain ⟨hIj, htimej, _⟩ :=
    timer_updates_spec (timer_add T handle session d) hIA j
      (by rw [htimea]; omega)
  have hlt1 : (timer_updates (timer_add T handle session d)
      j).time + 1 < 2 ^ 32 := by
    rw [htimej, htimea]
    omega
  obtain ⟨_, _, hex, _, _⟩ := timer_update_spec _ hIj hlt1
  have h := hex _ hmem
  rw [htimej, htimea] at h
  have h' : T.time + d = T.time + j ∨ T.time + d = T.time + j + 1 := h
  omega

theorem timer_never_early_witness :
    (∀ j, j + 1 < 2 →
      (⟨timer_create_timer.time + 2, 5, 7⟩ : TimerNode) ∉
        (timer_update (timer_updates (timer_add timer_create_timer 5 7 2)
          j)).1) ∧
    (⟨timer_create_timer.time + 2, 5, 7⟩ : TimerNode) ∈
      (timer_update (timer_updates (timer_add timer_create_timer 5 7 2)
        (2 - 1))).1 ∧
    (timer_update (timer_updates (timer_add timer_create_timer 5 7 2)
      (2 - 1))).2.time = timer_create_timer.time + 2 ∧
    (5, (⟨0, 7, none,
        PTYPE_RESPONSE <<< MESSAGE_TYPE_SHIFT⟩ : SkynetMessage)) ∈
      dispatch_list (timer_update (timer_updates (timer_add
        timer_create_timer 5 7 2) (2 - 1))).1 :=
  timer_never_early timer_create_timer 5 7 2 timer_create_inv
    (by decide) (by decide)

/-- C4 counterexample: at base tick `T = 1` a timer with relative delay
`d = 2^14 - 1` (expiry `2^14`) lands in cascade wheel `t[1]` (spec level
2), not level 1, because `add_node` places nodes by the expiry's wheel
blocks relative to the current tick, not by `d` alone. -/
theorem timer_level_counterexample :
    (⟨2 ^ 14, 7, 5⟩ : TimerNode) ∈
      (timer_add { timer_create_timer with time := 1 } 7 5 (2 ^ 14 - 1)).t
        1 ⟨1, by decide⟩ ∧
    (∀ idx : Fin TIME_LEVEL, (⟨2 ^ 14, 7, 5⟩ : TimerNode) ∉
      (timer_add { timer_create_timer with time := 1 } 7 5 (2 ^ 14 - 1)).t
        0 idx) := by
  decide

/-- C4 amended: the insert rule is block-based, in terms of the base tick
`T` and the delay `d` (expiry `e = T+d`, no 32-bit wrap): the node goes to
the near wheel iff `T % 2^8 + d < 2^8` (equivalently `e` and `T` share the
`2^8` block), and otherwise to the smallest cascade level `L ∈ {1,2,3}`
with `T % 2^(8+6L) + d < 2^(8+6L)`, or to level 4 when none holds; the slot
is the corresponding 6-bit window of the expiry.  Only at an aligned base
(e.g. `T = 0`) does this reduce to the spec's pure-`d` thresholds
`d < 2^(8+6L)`. -/
theorem add_node_level_rule (T : Timer) (handle : Nat) (session : Int)
    (d : Nat) (hwrap : T.time + d < 2 ^ 32) :
    (T.time % 2 ^ 8 + d < 2 ^ 8 →
      (⟨d + T.time, handle, session⟩ : TimerNode) ∈
        (timer_add T handle session d).near
          ⟨(d + T.time) % TIME_NEAR, Nat.mod_lt _ (by decide)⟩) ∧
    (¬(T.time % 2 ^ 8 + d < 2 ^ 8) → T.time % 2 ^ 14 + d < 2 ^ 14 →
      (⟨d + T.time, handle, session⟩ : TimerNode) ∈
        (timer_add T handle session d).t 0
          ⟨((d + T.time) >>> 8) % TIME_LEVEL, Nat.mod_lt _ (by decide)⟩) ∧
    (¬(T.time % 2 ^ 14 + d < 2 ^ 14) → T.time % 2 ^ 20 + d < 2 ^ 20 →
      (⟨d + T.time, handle, session⟩ : TimerNode) ∈
        (timer_add T handle session d).t 1
          ⟨((d + T.time) >>> 14) % TIME_LEVEL, Nat.mod_lt _ (by decide)⟩) ∧
    (¬(T.time % 2 ^ 20 + d < 2 ^ 20) → T.time % 2 ^ 26 + d < 2 ^ 26 →
      (⟨d + T.time, handle, session⟩ : TimerNode) ∈
        (timer_add T handle session d).t 2
          ⟨((d + T.time) >>> 20) % TIME_LEVEL, Nat.mod_lt _ (by decide)⟩) ∧
    (¬(T.time % 2 ^ 26 + d < 2 ^ 26) →
      (⟨d + T.time, handle, session⟩ : TimerNode) ∈
        (timer_add T handle session d).t 3
          ⟨((d + T.time) >>> 26) % TIME_LEVEL, Nat.mod_lt _ (by decide)⟩) := by
  have he : (d + T.time) % 2 ^ 32 = d + T.time := Nat.mod_eq_of_lt (by omega)
  have hmask : TIME_NEAR_MASK = 2 ^ 8 - 1 := by decide
  have hc14to8 : T.time % 2 ^ 8 + d < 2 ^ 8 → T.time % 2 ^ 14 + d < 2 ^ 14 := by
    intro h
    have h1 : T.time % 2 ^ 14 % 2 ^ 8 = T.time % 2 ^ 8 := Nat.mod_mod_of_dvd _
      (by norm_num)
    omega
  have hc20to14 : T.time % 2 ^ 14 + d < 2 ^ 14 →
      T.time % 2 ^ 20 + d < 2 ^ 20 := by
    intro h
    have h1 : T.time % 2 ^ 20 % 2 ^ 14 = T.time % 2 ^ 14 := Nat.mod_mod_of_dvd _
      (by norm_num)
    omega
  have hc26to20 : T.time % 2 ^ 20 + d < 2 ^ 20 →
      T.time % 2 ^ 26 + d < 2 ^ 26 := by
    intro h
    have h1 : T.time % 2 ^ 26 % 2 ^ 20 = T.time % 2 ^ 20 := Nat.mod_mod_of_dvd _
      (by norm_num)
    omega
  refine ⟨?_, ?_, ?_, ?_, ?_⟩
  · intro hc
    have hcond : (d + T.time) ||| TIME_NEAR_MASK =
        T.time ||| TIME_NEAR_MASK := by
      rw [hmask]
      exact (mask_cond_iff T.time d 8).mpr hc
    unfold timer_add add_node
    dsimp only
    rw [he, if_pos hcond]
    exact mem_linkNear_self T _ _
  · intro hc8 hc14
    have hcond8 : ¬((d + T.time) ||| TIME_NEAR_MASK =
        T.time ||| TIME_NEAR_MASK) := by
      rw [hmask]
      exact fun hcontra => hc8 ((mask_cond_iff T.time d 8).mp hcontra)
    have hi : (if (d + T.time) ||| (2 ^ 14 - 1) = T.time ||| (2 ^ 14 - 1)
        then (⟨0, by decide⟩ : Fin 4)
        else if (d + T.time) ||| (2 ^ 20 - 1) = T.time ||| (2 ^ 20 - 1) then
          ⟨1, by decide⟩
        else if (d + T.time) ||| (2 ^ 26 - 1) = T.time ||| (2 ^ 26 - 1) then
          ⟨2, by decide⟩
        else ⟨3, by decide⟩) = 0 := by
      rw [if_pos ((mask_cond_iff T.time d 14).mpr hc14)]
      rfl
    unfold timer_add add_node
    dsimp only
    rw [he, if_neg hcond8]
    simp only [hi]
    exact mem_linkLevel_self T 0 _ _
  · intro hc14 hc20
    have hcond8 : ¬((d + T.time) ||| TIME_NEAR_MASK =
        T.time ||| TIME_NEAR_MASK) := by
      rw [hmask]
      exact fun hcontra =>
        hc14 (hc14to8 ((mask_cond_iff T.time d 8).mp hcontra))
    have hi : (if (d + T.time) ||| (2 ^ 14 - 1) = T.time ||| (2 ^ 14 - 1)
        then (⟨0, by decide⟩ : Fin 4)
        else if (d + T.time) ||| (2 ^ 20 - 1) = T.time ||| (2 ^ 20 - 1) then
          ⟨1, by decide⟩
        else if (d + T.time) ||| (2 ^ 26 - 1) = T.time ||| (2 ^ 26 - 1) then
          ⟨2, by decide⟩
        else ⟨3, by decide⟩) = 1 := by
      rw [if_neg (fun hcontra =>
          hc14 ((mask_cond_iff T.time d 14).mp hcontra)),
        if_pos ((mask_cond_iff T.time d 20).mpr hc20)]
      rfl
    unfold timer_add add_node
    dsimp only
    rw [he, if_neg hcond8]
    simp only [hi]
    exact mem_linkLevel_self T 1 _ _
  · intro hc20 hc26
    have hcond8 : ¬((d + T.time) ||| TIME_NEAR_MASK =
        T.time ||| TIME_NEAR_MASK) := by
      rw [hmask]
      exact fun hcontra =>
        hc20 (hc20to14 (hc14to8 ((mask_cond_iff T.time d 8).mp hcontra)))
    have hi : (if (d + T.time) ||| (2 ^ 14 - 1) = T.time ||| (2 ^ 14 - 1)
        then (⟨0, by decide⟩ : Fin 4)
        else if (d + T.time) ||| (2 ^ 20 - 1) = T.time ||| (2 ^ 20 - 1) then
          ⟨1, by decide⟩
        else if (d + T.time) ||| (2 ^ 26 - 1) = T.time ||| (2 ^ 26 - 1) then
          ⟨2, by decide⟩
        else ⟨3, by decide⟩) = 2 := by
      rw [if_neg (fun hcontra =>
          hc20 (hc20to14 ((mask_cond_iff T.time d 14).mp hcontra))),
        if_neg (fun hcontra =>
          hc20 ((mask_cond_iff T.time d 20).mp hcontra)),
        if_pos ((mask_cond_iff T.time d 26).mpr hc26)]
      rfl
    unfold timer_add add_node
    dsimp only
    rw [he, if_neg hcond8]
    simp only [hi]
    exact mem_linkLevel_self T 2 _ _
  · intro hc26
    have hcond8 : ¬((d + T.time) ||| TIME_NEAR_MASK =
        T.time ||| TIME_NEAR_MASK) := by
      rw [hmask]
      exact fun hcontra =>
        hc26 (hc26to20 (hc20to14 (hc14to8
          ((mask_cond_iff T.time d 8).mp hcontra))))
    have hi : (if (d + T.time) ||| (2 ^ 14 - 1) = T.time ||| (2 ^ 14 - 1)
        then (⟨0, by decide⟩ : Fin 4)
        else if (d + T.time) ||| (2 ^ 20 - 1) = T.time ||| (2 ^ 20 - 1) then
          ⟨1, by decide⟩
        else if (d + T.time) ||| (2 ^ 26 - 1) = T.time ||| (2 ^ 26 - 1) then
          ⟨2, by decide⟩
        else ⟨3, by decide⟩) = 3 := by
      rw [if_neg (fun hcontra =>
          hc26 (hc26to20 (hc20to14
            ((mask_cond_iff T.time d 14).mp hcontra)))),
        if_neg (fun hcontra =>
          hc26 (hc26to20 ((mask_cond_iff T.time d 20).mp hcontra))),
        if_neg (fun hcontra => hc26 ((mask_cond_iff T.time d 26).mp hcontra))]
      rfl
    unfold timer_add add_node
    dsimp only
    rw [he, if_neg hcond8]
    simp only [hi]
    exact mem_linkLevel_self T 3 _ _

theorem add_node_level_rule_witness :
    ((timer_create_timer.time % 2 ^ 8 + (2 ^ 14 - 1) < 2 ^ 8 →
      (⟨2 ^ 14 - 1 + timer_create_timer.time, 7, 5⟩ : TimerNode) ∈
        (timer_add timer_create_timer 7 5 (2 ^ 14 - 1)).near
          ⟨(2 ^ 14 - 1 + timer_create_timer.time) % TIME_NEAR,
            Nat.mod_lt _ (by decide)⟩) ∧
    (¬(timer_create_timer.time % 2 ^ 8 + (2 ^ 14 - 1) < 2 ^ 8) →
      timer_create_timer.time % 2 ^ 14 + (2 ^ 14 - 1) < 2 ^ 14 →
      (⟨2 ^ 14 - 1 + timer_create_timer.time, 7, 5⟩ : TimerNode) ∈
        (timer_add timer_create_timer 7 5 (2 ^ 14 - 1)).t 0
          ⟨((2 ^ 14 - 1 + timer_create_timer.time) >>> 8) % TIME_LEVEL,
            Nat.mod_lt _ (by decide)⟩) ∧
    (¬(timer_create_timer.time % 2 ^ 14 + (2 ^ 14 - 1) < 2 ^ 14) →
      timer_create_timer.time % 2 ^ 20 + (2 ^ 14 - 1) < 2 ^ 20 →
      (⟨2 ^ 14 - 1 + timer_create_timer.time, 7, 5⟩ : TimerNode) ∈
        (timer_add timer_create_timer 7 5 (2 ^ 14 - 1)).t 1
          ⟨((2 ^ 14 - 1 + timer_create_timer.time) >>> 14) % TIME_LEVEL,
            Nat.mod_lt _ (by decide)⟩) ∧
    (¬(timer_create_timer.time % 2 ^ 20 + (2 ^ 14 - 1) < 2 ^ 20) →
      timer_create_timer.time % 2 ^ 26 + (2 ^ 14 - 1) < 2 ^ 26 →
      (⟨2 ^ 14 - 1 + timer_create_timer.time, 7, 5⟩ : TimerNode) ∈
        (timer_add timer_create_timer 7 5 (2 ^ 14 - 1)).t 2
          ⟨((2 ^ 14 - 1 + timer_create_timer.time) >>> 20) % TIME_LEVEL,
            Nat.mod_lt _ (by decide)⟩) ∧
    (¬(timer_create_timer.time % 2 ^ 26 + (2 ^ 14 - 1) < 2 ^ 26) →
      (⟨2 ^ 14 - 1 + timer_create_timer.time, 7, 5⟩ : TimerNode) ∈
        (timer_add timer_create_timer 7 5 (2 ^ 14 - 1)).t 3
          ⟨((2 ^ 14 - 1 + timer_create_timer.time) >>> 26) % TIME_LEVEL,
            Nat.mod_lt _ (by decide)⟩)) ∧
    timer_create_timer.time + (2 ^ 14 - 1) < 2 ^ 32 :=
  ⟨add_node_level_rule timer_create_timer 7 5 (2 ^ 14 - 1) (by decide),
   by decide⟩

/-- C8: `skynet_monitor_check` marks the recorded destination endless (and
emits the error line) iff the version equals the previous sample and the
destination is nonzero; `cmd_stat "endless"` returns "1" and clears the
flag when set, "0" leaving the context unchanged when clear. -/
theorem monitor_endless_stat (sm : SkynetMonitor) (ctx : StatContext) :
    ((skynet_monitor_check sm).2 = some sm.destination ↔
      sm.version = sm.check_version ∧ sm.destination ≠ 0) ∧
    cmd_stat ctx "endless" =
      (if ctx.endless then { ctx with endless := false } else ctx,
       if ctx.endless then "1" else "0") := by
  constructor
  · unfold skynet_monitor_check
    by_cases h1 : sm.version = sm.check_version <;>
      by_cases h2 : sm.destination ≠ 0 <;> simp [h1, h2]
  · unfold cmd_stat
    by_cases h : ctx.endless <;> simp [h]

end Skynet
